import Mathlib

/-!
Verification of the classification-and-scoring engine of
src/scripts/scil_score_tractogram.py.

The definitions below are a shallow embedding of the python source:

* the configuration model (read_config_file),
* the cross-bundle duplicate detection of compute_vb_vs_all_bundles,
* the WPC cleaning of save_wpc_all_bundles,
* the global id-set aggregation of main (all_vs_ids, all_wpc_ids,
  all_ic_ids, all_nc_ids),
* the false-connection ROI-pair enumeration of main (itertools.combinations
  followed by list.remove),
* the report assembly of compute_tractometry.

Numpy set routines (np.unique, np.intersect1d, np.setdiff1d) are embedded as
sorted deduplicating list operations, matching their documented semantics.
Python division of two ints (or float by int) raises ZeroDivisionError when
the denominator is zero; fallible computations are therefore embedded in the
Except monad, with an error value standing for the raised exception.
-/

deriving instance DecidableEq for Except

namespace ScilScore

/-- Shape of an Except value: true exactly on ok results.  Python code that
raises is embedded as an error value. -/
def exOk {α : Type} : Except String α → Bool
  | .ok _ => true
  | .error _ => false

/-- Python os.path.join as used by read_config_file: an empty directory
prefix leaves the filename unchanged. -/
def pjoin (dir file : String) : String :=
  if dir = "" then file else dir ++ "/" ++ file

/-- One key-value entry of a bundle's property mapping in the gt_config json
file.  The constructor encodes the json key, the payload its value; a key
that is none of the ten enumerated ones is `unknown`. -/
inductive CKey where
  | angle (v : ℚ)
  | length (v : ℚ × ℚ)
  | length_x (v : ℚ × ℚ)
  | length_y (v : ℚ × ℚ)
  | length_z (v : ℚ × ℚ)
  | gt_mask (path : String)
  | limits_mask (path : String)
  | endpoints (path : String)
  | head (path : String)
  | tail (path : String)
  | unknown (key : String)
  deriving DecidableEq

/-- Python membership test for the key endpoints in bundle_config. -/
def hasEndpointsKey (ks : List CKey) : Bool :=
  ks.any (fun k => match k with | .endpoints _ => true | _ => false)

/-- Python membership test for the key head in bundle_config. -/
def hasHeadKey (ks : List CKey) : Bool :=
  ks.any (fun k => match k with | .head _ => true | _ => false)

/-- Python membership test for the key tail in bundle_config. -/
def hasTailKey (ks : List CKey) : Bool :=
  ks.any (fun k => match k with | .tail _ => true | _ => false)

/-- Python membership test for the key limits_mask in bundle_config. -/
def hasLimitsMaskKey (ks : List CKey) : Bool :=
  ks.any (fun k => match k with | .limits_mask _ => true | _ => false)

/-- Whether the bundle mapping holds a key outside the enumerated set. -/
def hasUnknownKey (ks : List CKey) : Bool :=
  ks.any (fun k => match k with | .unknown _ => true | _ => false)

/-- Python dict lookup bundle_config of tail, first matching entry. -/
def tailValue (ks : List CKey) : Option String :=
  ks.findSome? (fun k => match k with | .tail p => some p | _ => none)

/-- The roi_option value built by read_config_file: either a combined
endpoints file, or an explicit head/tail pair of files. -/
inductive RoiOption where
  | gt_endpoints (path : String)
  | headTail (headPath tailPath : String)
  deriving DecidableEq

/-- The per-bundle local variables threaded through the key loop of
read_config_file. -/
structure BundleAcc where
  angle : Option ℚ
  length : Option (ℚ × ℚ)
  length_x : Option (ℚ × ℚ)
  length_y : Option (ℚ × ℚ)
  length_z : Option (ℚ × ℚ)
  gt_mask : Option String
  limit_mask : Option String
  roi_option : Option RoiOption
  deriving DecidableEq

/-- All per-bundle variables start out as python None. -/
def BundleAcc.init : BundleAcc :=
  ⟨none, none, none, none, none, none, none, none⟩

/-- One iteration of the key loop in read_config_file.  Error values embed
the ValueError raised by the source on: limits_mask together with the
use_gt_masks_as_limits_masks flag, endpoints together with head or tail,
head without tail, and an unrecognized key. -/
def applyKey (useGtAsLimits : Bool) (gtDir limDir roisDir : String)
    (ks : List CKey) (acc : BundleAcc) : CKey → Except String BundleAcc
  | .angle v => .ok { acc with angle := some v }
  | .length v => .ok { acc with length := some v }
  | .length_x v => .ok { acc with length_x := some v }
  | .length_y v => .ok { acc with length_y := some v }
  | .length_z v => .ok { acc with length_z := some v }
  | .gt_mask p =>
      let g := pjoin gtDir p
      .ok { acc with gt_mask := some g,
                     limit_mask := if useGtAsLimits then some g else acc.limit_mask }
  | .limits_mask p =>
      if useGtAsLimits then
        .error ("With the option --use_gt_masks_as_limits_masks, you should not add any limits_mask in the config file.")
      else
        .ok { acc with limit_mask := some (pjoin limDir p) }
  | .endpoints p =>
      if hasHeadKey ks || hasTailKey ks then
        .error ("Bundle has confusing keywords in the config file. Please choose either endpoints OR head/tail.")
      else
        .ok { acc with roi_option := some (.gt_endpoints (pjoin roisDir p)) }
  | .head p =>
      match tailValue ks with
      | none => .error ("You have provided the head for bundle, but not the tail")
      | some t =>
          .ok { acc with roi_option := some (RoiOption.headTail (pjoin roisDir p) (pjoin roisDir t)) }
  | .tail _ => .ok acc
  | .unknown k => .error ("Unrecognized value " ++ k ++ " in the config file")

/-- Parsing of one bundle entry of read_config_file: the initial check that
endpoints or head is present, then the loop over the bundle's keys. -/
def parseBundle (useGtAsLimits : Bool) (gtDir limDir roisDir : String)
    (ks : List CKey) : Except String BundleAcc :=
  if !hasEndpointsKey ks && !hasHeadKey ks then
    .error ("Bundle configuration misses endpoints or head/tail")
  else
    ks.foldlM (applyKey useGtAsLimits gtDir limDir roisDir ks) BundleAcc.init

/-- A per-axis bound pair; the top upper bound models np.inf. -/
abbrev AxisBound := ℚ × WithTop ℚ

/-- Defaulting of an absent per-axis bound to python [0, np.inf]. -/
def toAxisBound : Option (ℚ × ℚ) → AxisBound
  | none => (0, ⊤)
  | some (a, b) => (a, (b : WithTop ℚ))

/-- Post-processing of the three per-axis bounds in read_config_file: None
when none of length_x, length_y, length_z was given, else the triple with
absent axes defaulted to [0, np.inf]. -/
def orientationLengthsOf (acc : BundleAcc) : Option (AxisBound × AxisBound × AxisBound) :=
  if acc.length_x.isNone && acc.length_y.isNone && acc.length_z.isNone then none
  else some (toAxisBound acc.length_x, toAxisBound acc.length_y, toAxisBound acc.length_z)

/-- The tuple of parallel lists returned by read_config_file. -/
structure ConfigResult where
  bundles : List String
  gt_masks : List (Option String)
  limits_masks : List (Option String)
  roi_options : List (Option RoiOption)
  lengths : List (Option (ℚ × ℚ))
  angles : List (Option ℚ)
  orientation_lengths : List (Option (AxisBound × AxisBound × AxisBound))
  deriving DecidableEq

/-- read_config_file of the source: parses every bundle entry in order and
assembles the parallel result lists.  An error value embeds the ValueError
raised inside the loop. -/
def read_config_file (useGtAsLimits : Bool) (gtDir limDir roisDir : String)
    (config : List (String × List CKey)) : Except String ConfigResult := do
  let parsed ← config.mapM (fun b => do
    let acc ← parseBundle useGtAsLimits gtDir limDir roisDir b.2
    pure (b.1, acc))
  pure {
    bundles := parsed.map (fun p => p.1)
    gt_masks := parsed.map (fun p => p.2.gt_mask)
    limits_masks := parsed.map (fun p => p.2.limit_mask)
    roi_options := parsed.map (fun p => p.2.roi_option)
    lengths := parsed.map (fun p => p.2.length)
    angles := parsed.map (fun p => p.2.angle)
    orientation_lengths := parsed.map (fun p => orientationLengthsOf p.2) }

/-- The error condition claimed for one bundle, written from the claim:
neither endpoints nor head; both endpoints and head or tail; tail without
head or head without tail; an unrecognized key; limits_mask together with
the derive-limits-from-gt_mask flag. -/
def claimedConfigError (useGtAsLimits : Bool) (ks : List CKey) : Bool :=
  (!hasEndpointsKey ks && !hasHeadKey ks) ||
  (hasEndpointsKey ks && (hasHeadKey ks || hasTailKey ks)) ||
  (hasTailKey ks && !hasHeadKey ks) ||
  (hasHeadKey ks && !hasTailKey ks) ||
  hasUnknownKey ks ||
  (useGtAsLimits && hasLimitsMaskKey ks)

/-- Whether one key makes its applyKey iteration raise; this does not depend
on the accumulator. -/
def keyFails (useGtAsLimits : Bool) (ks : List CKey) : CKey → Bool
  | .limits_mask _ => useGtAsLimits
  | .endpoints _ => hasHeadKey ks || hasTailKey ks
  | .head _ => (tailValue ks).isNone
  | .unknown _ => true
  | _ => false

/-- First-occurrence deduplication, the python list of dict.fromkeys. -/
def pyDedupAux {α : Type} [DecidableEq α] : List α → List α → List α
  | _, [] => []
  | seen, x :: xs =>
      if x ∈ seen then pyDedupAux seen xs else x :: pyDedupAux (x :: seen) xs

/-- Deduplication keeping the first occurrence of every element. -/
def pyDedup {α : Type} [DecidableEq α] (l : List α) : List α :=
  pyDedupAux [] l

/-- Python sorted, and the sorted order of the numpy set routines. -/
def pySort {α : Type} [LinearOrder α] (l : List α) : List α :=
  List.insertionSort (fun a b => a ≤ b) l

/-- np.unique of a list: its sorted distinct elements. -/
def npUnique {α : Type} [LinearOrder α] (l : List α) : List α :=
  pySort (pyDedup l)

/-- np.intersect1d: sorted distinct common elements. -/
def intersect1d (a b : List ℕ) : List ℕ :=
  npUnique (a.filter (fun x => x ∈ b))

/-- np.setdiff1d: sorted distinct elements of the first list not in the second. -/
def setdiff1d (a b : List ℕ) : List ℕ :=
  npUnique (a.filter (fun x => x ∉ b))

/-- np.arange. -/
def arange (n : ℕ) : List ℕ :=
  List.range n

/-- save_wpc_all_bundles: with the remove_wpc_belonging_to_another_bundle
flag, each bundle's WPC ids that are VS of a different bundle are removed
with np.setdiff1d; without the flag the lists are untouched. -/
def cleanWpc (removeFlag : Bool) (vsList wpcList : List (List ℕ)) : List (List ℕ) :=
  if removeFlag then
    (List.range wpcList.length).map (fun i =>
      let others := ((List.range wpcList.length).filter (fun j => j ≠ i)).flatMap
        (fun j => vsList.getD j [])
      setdiff1d (wpcList.getD i []) others)
  else wpcList

/-- The wpc_ids_list used by main: the raw per-bundle WPC id lists when
save_wpc_separately is set, the empty list of lists otherwise (source lines
722-730).  save_wpc_all_bundles only rebinds its local wpc_ids (line 492)
and never writes the cleaned ids back into wpc_ids_list, so the cleaning
flag does not reach this list: main aggregates the raw lists (line 764). -/
def wpcIdsUsed (saveWpc : Bool) (wpcRaw : List (List ℕ)) : List (List ℕ) :=
  if saveWpc then wpcRaw else []

/-- all_vs_ids of main: np.unique of the chained per-bundle VS id lists. -/
def allVsIds (vsList : List (List ℕ)) : List ℕ :=
  npUnique vsList.flatten

/-- all_wpc_ids of main: np.unique of the chained WPC id lists in use. -/
def allWpcIds (saveWpc : Bool) (wpcRaw : List (List ℕ)) : List ℕ :=
  npUnique (wpcIdsUsed saveWpc wpcRaw).flatten

/-- all_ic_ids of main: np.unique of the chained per-pair IC id lists. -/
def allIcIds (icList : List (List ℕ)) : List ℕ :=
  npUnique icList.flatten

/-- all_nc_ids of main: np.arange of the streamline count, then successive
np.setdiff1d with all_vs_ids, all_wpc_ids and all_ic_ids. -/
def allNcIds (n : ℕ) (saveWpc : Bool)
    (vsList wpcRaw icList : List (List ℕ)) : List ℕ :=
  setdiff1d (setdiff1d (setdiff1d (arange n) (allVsIds vsList))
    (allWpcIds saveWpc wpcRaw)) (allIcIds icList)

/-- Voxel coordinates of streamline points. -/
abbrev Voxel := ℤ × ℤ × ℤ

/-- Modelled from the spec: the per-bundle classifier extract_vb_vs lives in
scilpy.tractanalysis.scoring, which is not under src/.  Following spec 4.2,
a bundle's criteria are the head and tail masks, the optional inverse limits
mask, and the optional geometry criteria (max turning angle, total length,
per-axis displacement); spec 2 treats the geometry primitives as external
collaborators, so they appear here as opaque boolean predicates on the point
sequence. -/
structure BundleCriteria where
  headMask : Voxel → Bool
  tailMask : Voxel → Bool
  limitsInvMask : Option (Voxel → Bool)
  geomCriteria : List (List Voxel → Bool)

/-- Modelled from the spec (4.2 step 1): the endpoint test holds when the two
terminal points lie in the head and tail masks, in either orientation. -/
def endpointTest (c : BundleCriteria) (s : List Voxel) : Bool :=
  match s.head?, s.getLast? with
  | some a, some b => (c.headMask a && c.tailMask b) || (c.headMask b && c.tailMask a)
  | _, _ => false

/-- Modelled from the spec (4.2 step 2): the inclusion criteria hold when
every point falls outside the inverse limits mask (if present) and every
geometry criterion accepts the streamline. -/
def passesInclusion (c : BundleCriteria) (s : List Voxel) : Bool :=
  (match c.limitsInvMask with
   | none => true
   | some inv => s.all (fun p => !inv p)) &&
  c.geomCriteria.all (fun crit => crit s)

/-- Modelled from the spec (4.2 step 3): extract_vb_vs returns the VS ids
(endpoint test and all inclusion criteria pass) and the WPC ids (endpoint
test passes, some inclusion criterion fails). -/
def extract_vb_vs (streamlines : List (List Voxel)) (c : BundleCriteria) :
    List ℕ × List ℕ :=
  ((List.range streamlines.length).filter (fun i =>
      endpointTest c (streamlines.getD i []) && passesInclusion c (streamlines.getD i [])),
   (List.range streamlines.length).filter (fun i =>
      endpointTest c (streamlines.getD i []) && !passesInclusion c (streamlines.getD i [])))

/-- A one-streamline tractogram for the concrete runs below. -/
def cexStreamlines : List (List Voxel) :=
  [[((0 : ℤ), (0 : ℤ), (0 : ℤ)), ((1 : ℤ), (0 : ℤ), (0 : ℤ)), ((2 : ℤ), (0 : ℤ), (0 : ℤ))]]

/-- A bundle whose head and tail masks catch the streamline and that has no
optional criteria: the streamline is its VS. -/
def cexBundleA : BundleCriteria :=
  ⟨fun p => decide (p = ((0 : ℤ), (0 : ℤ), (0 : ℤ))),
   fun p => decide (p = ((2 : ℤ), (0 : ℤ), (0 : ℤ))),
   none, []⟩

/-- A bundle with the same head and tail masks whose inverse limits mask
contains the middle point of the streamline: the streamline connects the
right ROIs but fails the limits criterion, so it is that bundle's WPC. -/
def cexBundleB : BundleCriteria :=
  ⟨fun p => decide (p = ((0 : ℤ), (0 : ℤ), (0 : ℤ))),
   fun p => decide (p = ((2 : ℤ), (0 : ℤ), (0 : ℤ))),
   some (fun p => decide (p = ((1 : ℤ), (0 : ℤ), (0 : ℤ)))), []⟩

def cexVsA : List ℕ := (extract_vb_vs cexStreamlines cexBundleA).1

def cexWpcA : List ℕ := (extract_vb_vs cexStreamlines cexBundleA).2

def cexVsB : List ℕ := (extract_vb_vs cexStreamlines cexBundleB).1

def cexWpcB : List ℕ := (extract_vb_vs cexStreamlines cexBundleB).2

/-- The residual as claim C3 words it: the full id range minus the VS union,
minus the WPC union computed from the per-bundle WPC id lists regardless of
the persistence flag, minus the IC union. -/
def claimedResidual (n : ℕ) (vsList wpcRaw icList : List (List ℕ)) : List ℕ :=
  setdiff1d (setdiff1d (setdiff1d (arange n) (npUnique vsList.flatten))
    (npUnique wpcRaw.flatten)) (npUnique icList.flatten)

/-- One conflicts artifact of compute_vb_vs_all_bundles: the warning names
both bundles and the duplicate count, and the duplicate sub-collection is
saved under segmented_conflicts. -/
structure ConflictRecord where
  name1 : String
  name2 : String
  count : ℕ
  ids : List ℕ
  deriving DecidableEq

/-- The path of the persisted conflicts sub-collection. -/
def ConflictRecord.filename (c : ConflictRecord) : String :=
  "segmented_conflicts/duplicates_" ++ c.name1 ++ "_" ++ c.name2 ++ ".trk"

/-- The duplicates loop of compute_vb_vs_all_bundles (source lines 449-472):
for every pair i < j of bundles, np.intersect1d of their VS id lists; when
non-empty, a warning with the count and both names is emitted and the
sub-collection sft of the duplicate ids is saved. -/
def dupConflicts : List (String × List ℕ) → List ConflictRecord
  | [] => []
  | (n1, v1) :: rest =>
      (rest.filterMap (fun b =>
        let d := intersect1d v1 b.2
        if d = [] then none else some ⟨n1, b.1, d.length, d⟩)) ++ dupConflicts rest

/-- compute_vb_vs_all_bundles returns the per-bundle VS id lists unchanged
next to the conflicts it detected: duplicate detection never modifies a VS
set. -/
def compute_vb_vs_all_bundles (bundles : List (String × List ℕ)) :
    List (String × List ℕ) × List ConflictRecord :=
  (bundles, dupConflicts bundles)

/-- itertools.combinations with r equal to 2: all ordered-position pairs. -/
def combinations2 {α : Type} : List α → List (α × α)
  | [] => []
  | x :: xs => xs.map (fun y => (x, y)) ++ combinations2 xs

/-- Python list.remove: drops the first occurrence of the value, none embeds
the ValueError raised when the value is absent. -/
def pyRemove {α : Type} [DecidableEq α] : List α → α → Option (List α)
  | [], _ => none
  | y :: ys, x => if y = x then some ys else Option.map (fun l => y :: l) (pyRemove ys x)

/-- The removal loop of main lines 753-755: one list.remove per declared
bundle pair, aborting on the first ValueError. -/
def removeAll {α : Type} [DecidableEq α] : List α → List α → Option (List α)
  | l, [] => some l
  | l, p :: ps =>
      match pyRemove l p with
      | none => none
      | some l2 => removeAll l2 ps

/-- tuple of python sorted applied to the pair (tail, head), main line 754. -/
def canonPair {α : Type} [LinearOrder α] (pr : α × α) : α × α :=
  if pr.2 < pr.1 then (pr.2, pr.1) else pr

/-- all_rois of load_and_verify_everything lines 271-272: gt_tails ++
gt_heads with first-occurrence deduplication. -/
def allRois {α : Type} [DecidableEq α] (gt_tails gt_heads : List α) : List α :=
  pyDedup (gt_tails ++ gt_heads)

/-- main lines 747-748: all_rois sorted, then every combination of two. -/
def combCandidates {α : Type} [LinearOrder α] (gt_tails gt_heads : List α) :
    List (α × α) :=
  combinations2 (pySort (allRois gt_tails gt_heads))

/-- main lines 752-754: the declared bundle (tail, head) filename pairs,
each compared as an unordered pair after canonical sort. -/
def vbRoiPairs {α : Type} [LinearOrder α] (gt_tails gt_heads : List α) :
    List (α × α) :=
  (gt_tails.zip gt_heads).map canonPair

/-- main lines 746-755: comb_filename, the candidate ROI combinations with
every declared bundle pair removed by list.remove; none embeds the
ValueError raised when a pair to remove is not present. -/
def combFilename {α : Type} [LinearOrder α] (gt_tails gt_heads : List α) :
    Option (List (α × α)) :=
  removeAll (combCandidates gt_tails gt_heads) (vbRoiPairs gt_tails gt_heads)

/-- Python division as used in compute_tractometry: the counts are python
ints (len, np.count_nonzero) and the accumulators floats, so a zero
denominator raises ZeroDivisionError, embedded as the error value; no numpy
nan semantics applies. -/
def pyDiv (a b : ℚ) : Except String ℚ :=
  if b = 0 then .error ("ZeroDivisionError") else .ok (a / b)

/-- The volumetric inputs of one bundle in compute_tractometry.  Masks are
finite voxel sets (voxels enumerated by naturals): gtMask is gt_masks[i]
(none when the bundle has no gt_mask), vbVoxels and vbEndVoxels are the
get_binary_maps outputs for the VS sub-tractogram and wpcVoxels for the WPC
sub-tractogram (external collaborators), and dice is the compute_dice_voxel
output (external). -/
structure BundleVol where
  gtMask : Option (Finset ℕ)
  vbVoxels : Finset ℕ
  vbEndVoxels : Finset ℕ
  wpcVoxels : Finset ℕ
  dice : ℚ
  deriving DecidableEq

/-- The volumetric block of vb_results (source lines 633-642), present only
when the bundle has a gt_mask. -/
structure VbMetrics where
  dice : ℚ
  OL : ℕ
  OR : ℕ
  lacking : ℕ
  OL_PCT : ℚ
  OR_PCT : ℚ
  endpoints_OL : ℕ
  endpoints_OR : ℕ
  deriving DecidableEq

/-- The wpc_results block (source lines 662-668), present when WPC are saved
separately and the bundle has a gt_mask. -/
structure WpcMetrics where
  count : ℕ
  OR : ℕ
  OL : ℕ
  OR_PCT : ℚ
  OL_PCT : ℚ
  deriving DecidableEq

/-- One bundle's entry of the bundle_wise report section. -/
structure BundleReport where
  VS : ℕ
  metrics : Option VbMetrics
  wpc : Option (Option WpcMetrics)
  deriving DecidableEq

/-- Per-bundle inputs of the tractometry loop: the bundle name, the VS
streamline count (len of vb_sft_list[i]), the cleaned WPC streamline count
(len of wpc_sft_list[i]) and the volumetric inputs. -/
structure BundleTract where
  name : String
  vsCount : ℕ
  wpcCount : ℕ
  vol : BundleVol
  deriving DecidableEq

/-- The loop state of the tractometry loop: the two running mean
accumulators and the bundle_wise entries found so far. -/
structure TractAcc where
  meanOL : ℚ
  meanOR : ℚ
  reports : List (String × BundleReport)
  deriving DecidableEq

/-- One iteration of the bundle loop of compute_tractometry (source lines
598-675).  With a gt_mask, overlap is the voxel count of gt ∧ vb, overreach
of vb ∧ ¬gt, lacking of gt ∧ ¬vb, and OL_PCT and OR_PCT divide by the gt
voxel count and raise ZeroDivisionError when it is zero.  Without a gt_mask
the vb_results record has no OL_PCT entry, so the accumulation
mean_overlap += vb_results["OL_PCT"] at line 673 raises KeyError. -/
def tractStep (saveWpc : Bool) (acc : TractAcc) (b : BundleTract) :
    Except String TractAcc :=
  match b.vol.gtMask with
  | none => .error ("KeyError: OL_PCT")
  | some gt =>
      let tot := gt.card
      let overlap := (gt ∩ b.vol.vbVoxels).card
      let over := (b.vol.vbVoxels \ gt).card
      let lack := (gt \ b.vol.vbVoxels).card
      let epOL := (gt ∩ b.vol.vbEndVoxels).card
      let epOR := (b.vol.vbEndVoxels \ gt).card
      pyDiv (overlap : ℚ) (tot : ℚ) >>= fun olPct =>
      pyDiv (over : ℚ) (tot : ℚ) >>= fun orPct =>
      (if saveWpc then
        pyDiv ((b.vol.wpcVoxels \ gt).card : ℚ) (tot : ℚ) >>= fun wOrPct =>
        pyDiv ((gt ∩ b.vol.wpcVoxels).card : ℚ) (tot : ℚ) >>= fun wOlPct =>
        .ok (some (⟨b.wpcCount, (b.vol.wpcVoxels \ gt).card,
          (gt ∩ b.vol.wpcVoxels).card, wOrPct, wOlPct⟩ : WpcMetrics))
      else .ok none) >>= fun wpcR =>
      .ok ⟨acc.meanOL + olPct, acc.meanOR + orPct,
        acc.reports ++ [(b.name,
          ⟨b.vsCount, some ⟨b.vol.dice, overlap, over, lack, olPct, orPct, epOL, epOR⟩,
           if saveWpc then some wpcR else none⟩)]⟩

/-- The final results.json value assembled by compute_tractometry; the
constant tractogram_filename and tractogram_overlap entries are omitted.
Ratio entries are named ratio_VS and so on for the VS_ratio keys of the
report. -/
structure FinalResults (α : Type) where
  VS : ℕ
  WPC : ℕ
  IC : ℕ
  NC : ℕ
  IS : ℕ
  VB : ℕ
  IB : ℕ
  WPC_bundle : ℕ
  ratio_VS : ℚ
  ratio_IC : ℚ
  ratio_NC : ℚ
  ratio_IS : ℚ
  ratio_WPC : ℚ
  total_streamlines : ℕ
  bundle_wise : List (String × BundleReport)
  ic_reports : List ((α × α) × ℕ × ℕ)
  mean_OL : ℚ
  mean_OR : ℚ
  deriving DecidableEq

/-- compute_tractometry of the source: the count and ratio header (lines
567-591, ratios dividing by the total streamline count), the bundle loop,
the false-connection voxel section (lines 677-695, one entry per ROI pair
with a non-empty IC set, counting its streamlines and voxels), and the mean
overlap and overreach (lines 697-701, dividing by the number of bundles).
Every division is python division and raises on a zero denominator. -/
def compute_tractometry {α : Type} (total : ℕ) (saveWpc computeIC : Bool)
    (allVs allWpc allIc allNc : List ℕ)
    (vsList wpcList icList : List (List ℕ))
    (bundles : List BundleTract)
    (icPairs : List ((α × α) × List ℕ × Finset ℕ)) :
    Except String (FinalResults α) :=
  pyDiv (allVs.length : ℚ) (total : ℚ) >>= fun rVS =>
  pyDiv (allIc.length : ℚ) (total : ℚ) >>= fun rIC =>
  pyDiv (allNc.length : ℚ) (total : ℚ) >>= fun rNC =>
  pyDiv ((allIc.length + allNc.length : ℕ) : ℚ) (total : ℚ) >>= fun rIS =>
  pyDiv (allWpc.length : ℚ) (total : ℚ) >>= fun rWPC =>
  bundles.foldlM (tractStep saveWpc) (⟨0, 0, []⟩ : TractAcc) >>= fun acc =>
  pyDiv acc.meanOL (bundles.length : ℚ) >>= fun mOL =>
  pyDiv acc.meanOR (bundles.length : ℚ) >>= fun mOR =>
  .ok {
    VS := allVs.length
    WPC := allWpc.length
    IC := allIc.length
    NC := allNc.length
    IS := allIc.length + allNc.length
    VB := (vsList.filter (fun x => x.length > 0)).length
    IB := (icList.filter (fun x => x.length > 0)).length
    WPC_bundle := (wpcList.filter (fun x => x.length > 0)).length
    ratio_VS := rVS
    ratio_IC := rIC
    ratio_NC := rNC
    ratio_IS := rIS
    ratio_WPC := rWPC
    total_streamlines := total
    bundle_wise := acc.reports
    ic_reports := if computeIC then
        icPairs.filterMap (fun e =>
          if e.2.1.length ≠ 0 then some (e.1, e.2.1.length, e.2.2.card) else none)
      else []
    mean_OL := mOL
    mean_OR := mOR }

/-- Whether a bundle enters the tractometry loop without fault: it has a
gt_mask and that mask has a non-zero voxel count. -/
def gtOk (b : BundleTract) : Prop :=
  b.vol.gtMask.isSome = true ∧ (b.vol.gtMask.getD ∅).card ≠ 0

instance (b : BundleTract) : Decidable (gtOk b) := by
  unfold gtOk
  infer_instance

/-- The OL_PCT value of a bundle with a gt_mask: overlap voxels over gt
voxels. -/
def olPctOf (b : BundleTract) : ℚ :=
  (((b.vol.gtMask.getD ∅) ∩ b.vol.vbVoxels).card : ℚ) / ((b.vol.gtMask.getD ∅).card : ℚ)

/-- The OR_PCT value of a bundle with a gt_mask: overreach voxels over gt
voxels. -/
def orPctOf (b : BundleTract) : ℚ :=
  ((b.vol.vbVoxels \ (b.vol.gtMask.getD ∅)).card : ℚ) / ((b.vol.gtMask.getD ∅).card : ℚ)

/-- The bundle_wise entry produced for a bundle with a gt_mask. -/
def reportOf (saveWpc : Bool) (b : BundleTract) : String × BundleReport :=
  let gt := b.vol.gtMask.getD ∅
  (b.name,
    ⟨b.vsCount,
     some ⟨b.vol.dice, (gt ∩ b.vol.vbVoxels).card, (b.vol.vbVoxels \ gt).card,
       (gt \ b.vol.vbVoxels).card, olPctOf b, orPctOf b,
       (gt ∩ b.vol.vbEndVoxels).card, (b.vol.vbEndVoxels \ gt).card⟩,
     if saveWpc then
       some (some ⟨b.wpcCount, (b.vol.wpcVoxels \ gt).card, (gt ∩ b.vol.wpcVoxels).card,
         ((b.vol.wpcVoxels \ gt).card : ℚ) / (gt.card : ℚ),
         ((gt ∩ b.vol.wpcVoxels).card : ℚ) / (gt.card : ℚ)⟩)
     else none⟩)

/-- All per-bundle data of one run: the bundle name, its endpoint ROI tail
and head files, the classifier outputs (VS and WPC id lists from
extract_vb_vs), and the volumetric inputs of the tractometry stage. -/
structure BundleData (α : Type) where
  name : String
  gtTail : α
  gtHead : α
  vsIds : List ℕ
  wpcIds : List ℕ
  vol : BundleVol
  deriving DecidableEq

/-- The per-bundle input of the tractometry stage built by main: the wpc
sub-tractogram is the cleaned WPC list when WPC are saved separately, and
empty otherwise. -/
def bundleTractsOf {α : Type} (saveWpc removeWpc : Bool) (bs : List (BundleData α)) :
    List BundleTract :=
  List.zipWith
    (fun (b : BundleData α) (w : List ℕ) =>
      (⟨b.name, b.vsIds.length, w.length, b.vol⟩ : BundleTract))
    bs
    (if saveWpc then
      cleanWpc removeWpc (bs.map (fun b => b.vsIds)) (bs.map (fun b => b.wpcIds))
    else bs.map (fun _ => []))

/-- The four saved global id sets of main (all_vs_ids, all_wpc_ids,
all_ic_ids, all_nc_ids); none when the IC pair removal raises. -/
def pipelineSets {α : Type} [LinearOrder α] (n : ℕ)
    (saveWpc computeIC : Bool) (bs : List (BundleData α))
    (icIds : α × α → List ℕ) :
    Option (List ℕ × List ℕ × List ℕ × List ℕ) :=
  match (if computeIC then
      combFilename (bs.map (fun b => b.gtTail)) (bs.map (fun b => b.gtHead))
    else some []) with
  | none => none
  | some comb =>
      some (allVsIds (bs.map (fun b => b.vsIds)),
        allWpcIds saveWpc (bs.map (fun b => b.wpcIds)),
        allIcIds (comb.map icIds),
        allNcIds n saveWpc (bs.map (fun b => b.vsIds))
          (bs.map (fun b => b.wpcIds)) (comb.map icIds))

/-- The whole pipeline of main after per-bundle classification: WPC saving
(722-730, the cleaned ids reach only the per-bundle sub-tractograms while
wpc_ids_list itself stays raw), IC pair enumeration (743-757, icIds and
icVox standing for the external extract_false_connections ids and
get_binary_maps voxels per ROI pair), the global id sets (763-772) and
compute_tractometry (789-792).  The error value embeds an uncaught python
exception. -/
def runPipeline {α : Type} [LinearOrder α] (n : ℕ)
    (saveWpc removeWpc computeIC : Bool) (bs : List (BundleData α))
    (icIds : α × α → List ℕ) (icVox : α × α → Finset ℕ) :
    Except String (FinalResults α) :=
  match (if computeIC then
      combFilename (bs.map (fun b => b.gtTail)) (bs.map (fun b => b.gtHead))
    else some []) with
  | none => .error ("ValueError: list.remove(x): x not in list")
  | some comb =>
      compute_tractometry n saveWpc computeIC
        (allVsIds (bs.map (fun b => b.vsIds)))
        (allWpcIds saveWpc (bs.map (fun b => b.wpcIds)))
        (allIcIds (comb.map icIds))
        (allNcIds n saveWpc (bs.map (fun b => b.vsIds))
          (bs.map (fun b => b.wpcIds)) (comb.map icIds))
        (bs.map (fun b => b.vsIds))
        (wpcIdsUsed saveWpc (bs.map (fun b => b.wpcIds)))
        (comb.map icIds)
        (bundleTractsOf saveWpc removeWpc bs)
        (comb.map (fun p => (p, icIds p, icVox p)))

/-- The per-bundle wpc list used by the tractometry stage, as a function of
the single bundle and the run's whole VS id pool. -/
def wpcOf {α : Type} (saveWpc removeWpc : Bool) (vsPool : List ℕ)
    (b : BundleData α) : List ℕ :=
  if saveWpc then
    (if removeWpc then setdiff1d b.wpcIds vsPool else b.wpcIds)
  else []

/-- The per-bundle tractometry input as a function of the single bundle and
the run's whole VS id pool. -/
def tractOf {α : Type} (saveWpc removeWpc : Bool) (vsPool : List ℕ)
    (b : BundleData α) : BundleTract :=
  ⟨b.name, b.vsIds.length, (wpcOf saveWpc removeWpc vsPool b).length, b.vol⟩

/-- Two concrete bundles for the C8 witness. -/
def c8b1 : BundleData ℕ :=
  ⟨"A", 0, 1, [0], [1], ⟨some (insert 7 ∅), insert 7 ∅, ∅, ∅, 1⟩⟩

/-- Two concrete bundles for the C8 witness, second bundle. -/
def c8b2 : BundleData ℕ :=
  ⟨"B", 2, 3, [2], [3], ⟨some (insert 8 ∅), ∅, ∅, ∅, 0⟩⟩

/-- A trivial external IC extractor for the C8 witness. -/
def c8ic : ℕ × ℕ → List ℕ := fun _ => []

/-- A trivial external IC voxel map for the C8 witness. -/
def c8vox : ℕ × ℕ → Finset ℕ := fun _ => ∅

/-- The output artifacts written by main, in order of writing: the per-bundle
segmented_VB/<bundle>_VS files, the segmented_conflicts duplicates files,
the per-bundle segmented_WPC/<bundle>_wpc files, processing_stats.json, the
per-pair segmented_IB files, the nc or is residual file, and results.json. -/
inductive Artifact (α : Type) where
  | vbFile (bundle : String)
  | conflictFile (b1 b2 : String)
  | wpcFile (bundle : String)
  | processingStats
  | ibFile (roi1 roi2 : α)
  | ncFile
  | isFile
  | resultsJson
  deriving DecidableEq

/-- main of the source, as the ordered list of artifacts it writes next to
its outcome: VS files and conflicts (compute_vb_vs_all_bundles), WPC files
(save_wpc_all_bundles, when saved separately), processing_stats.json, then
under compute_IC the bundle-pair removal (raising ValueError when a pair is
absent), the IB files, the residual nc/is file, and, after a successful
compute_tractometry, results.json.  A raised exception carries the artifacts
already written. -/
def mainRun {α : Type} [LinearOrder α] (n : ℕ)
    (saveWpc removeWpc computeIC noEmpty : Bool) (bs : List (BundleData α))
    (icIds : α × α → List ℕ) (icVox : α × α → Finset ℕ) :
    List (Artifact α) × Except String (FinalResults α) :=
  let vsList := bs.map (fun b => b.vsIds)
  let wpcRaw := bs.map (fun b => b.wpcIds)
  let w1 := bs.filterMap (fun b =>
    if b.vsIds.length > 0 || !noEmpty then some (Artifact.vbFile b.name) else none)
  let w2 := (dupConflicts (bs.map (fun b => (b.name, b.vsIds)))).map
    (fun c => Artifact.conflictFile c.name1 c.name2)
  let w3 := if saveWpc then
      (List.zipWith (fun (b : BundleData α) (w : List ℕ) => (b.name, w)) bs
        (cleanWpc removeWpc vsList wpcRaw)).filterMap
        (fun p => if p.2.length > 0 || !noEmpty then some (Artifact.wpcFile p.1) else none)
    else []
  let w4 := w1 ++ w2 ++ w3 ++ [Artifact.processingStats]
  match (if computeIC then
      combFilename (bs.map (fun b => b.gtTail)) (bs.map (fun b => b.gtHead))
    else some []) with
  | none => (w4, .error ("ValueError: list.remove(x): x not in list"))
  | some comb =>
      let icList := comb.map icIds
      let w5 := comb.filterMap (fun p =>
        if (icIds p).length > 0 || !noEmpty then some (Artifact.ibFile p.1 p.2) else none)
      let ncIdsL := allNcIds n saveWpc vsList wpcRaw icList
      let w6 := if ncIdsL.length > 0 || !noEmpty then
          [if computeIC then Artifact.ncFile else Artifact.isFile] else []
      let w7 := w4 ++ w5 ++ w6
      match compute_tractometry n saveWpc computeIC (allVsIds vsList)
          (allWpcIds saveWpc wpcRaw) (allIcIds icList) ncIdsL
          vsList (wpcIdsUsed saveWpc wpcRaw) icList
          (bundleTractsOf saveWpc removeWpc bs)
          (comb.map (fun p => (p, icIds p, icVox p))) with
      | .error e => (w7, .error e)
      | .ok r => (w7 ++ [Artifact.resultsJson], .ok r)

/-- One bundle whose head and tail resolve to the same ROI file, for the C10
witness. -/
def c10b : BundleData ℕ :=
  ⟨"A", 5, 5, [], [], ⟨none, ∅, ∅, ∅, 0⟩⟩

/-- Bit length of a natural number (0 for 0), with explicit fuel; fuel at
least the number itself is always sufficient. -/
def bitLen : ℕ → ℕ → ℕ
  | 0, _ => 0
  | fuel + 1, m => if m = 0 then 0 else bitLen fuel (m / 2) + 1

/-- A nonnegative binary64 value in canonical form: zero is ⟨0, 0⟩, any
other value is an odd significand times a power of two.  Python floats are
IEEE binary64; the magnitudes arising in the score report are far from the
overflow and subnormal ranges, so the exponent is unbounded here. -/
structure F64 where
  m : ℕ
  e : ℤ
  deriving DecidableEq

/-- Canonical form of the dyadic value m * 2^e: divide the factors of two
out of the significand (fuel at least m always suffices). -/
def f64Norm : ℕ → ℕ → ℤ → F64
  | 0, m, e => ⟨m, e⟩
  | fuel + 1, m, e => if 0 < m ∧ m % 2 = 0 then f64Norm fuel (m / 2) (e + 1) else ⟨m, e⟩

/-- IEEE round-to-nearest, ties-to-even of the dyadic value m * 2^e at 53
significant bits: binary64 rounding in the exponent range used here. -/
def f64Round (m : ℕ) (e : ℤ) : F64 :=
  if m = 0 then ⟨0, 0⟩
  else
    let bits := bitLen m m
    if bits ≤ 53 then f64Norm m m e
    else
      let shift := bits - 53
      let d := 2 ^ shift
      let q := m / d
      let r := m % d
      let half := d / 2
      let q2 := if r < half then q
        else if half < r then q + 1
        else if q % 2 = 0 then q else q + 1
      f64Norm q2 q2 (e + shift)

/-- Binary64 addition of nonnegative values: align the significands on the
smaller exponent, add exactly, round to 53 bits.  This is the semantics of
the python float additions accumulating mean_overlap and mean_overreach
(source line 673). -/
def f64Add (a b : F64) : F64 :=
  let e := min a.e b.e
  f64Round (a.m * 2 ^ (a.e - e).toNat + b.m * 2 ^ (b.e - e).toNat) e

/-- The binary64 value nearest to the nonnegative rational p / q (ties to
even): the semantics of python's true division of two ints.  The quotient is
computed with 64 guard bits beyond the denominator width and the sticky
remainder decides the directed cases exactly, so the result is correctly
rounded. -/
def f64OfRat (p q : ℕ) : F64 :=
  if p = 0 ∨ q = 0 then ⟨0, 0⟩
  else
    let s := 64 + bitLen q q
    let t := p * 2 ^ s
    let n := t / q
    let r := t % q
    let bits := bitLen n n
    let shift := bits - 53
    let d := 2 ^ shift
    let hi := n / d
    let lo := n % d
    let half := d / 2
    let hi2 := if lo < half then hi
      else if half < lo then hi + 1
      else if r = 0 then (if hi % 2 = 0 then hi else hi + 1) else hi + 1
    f64Norm hi2 hi2 ((shift : ℤ) - (s : ℤ))

/-- Binary64 division of a nonnegative value by a positive int, correctly
rounded: the semantics of python's mean_overlap / nb_bundles (source line
699). -/
def f64DivNat (a : F64) (k : ℕ) : F64 :=
  if 0 ≤ a.e then f64OfRat (a.m * 2 ^ a.e.toNat) k
  else f64OfRat a.m (k * 2 ^ (-a.e).toNat)

/-- The binary64 value of one bundle's OL_PCT entry (source line 638: the
python ints vs_overlap and gt_total_nb_voxels divided in floating point). -/
def f64OlPct (b : BundleTract) : F64 :=
  f64OfRat ((b.vol.gtMask.getD ∅) ∩ b.vol.vbVoxels).card (b.vol.gtMask.getD ∅).card

/-- The binary64 value of the reported mean_OL (source lines 594, 673, 699):
the accumulator starts at 0.0, adds each bundle's OL_PCT in processing order
with binary64 addition, and is finally divided by the bundle count.  This is
the floating point counterpart of the exact meanOL accumulation of
tractStep and compute_tractometry. -/
def f64MeanOL (bundles : List BundleTract) : F64 :=
  f64DivNat (bundles.foldl (fun acc b => f64Add acc (f64OlPct b)) ⟨0, 0⟩)
    bundles.length

/-- A bundle tractometry input with a 10-voxel gt mask and OL_PCT 1/10, for
the C8 counterexample. -/
def c8fA : BundleTract :=
  ⟨"A", 1, 0, ⟨some (Finset.range 10), Finset.range 1, ∅, ∅, 0⟩⟩

/-- A bundle tractometry input with a 10-voxel gt mask and OL_PCT 2/10, for
the C8 counterexample. -/
def c8fB : BundleTract :=
  ⟨"B", 1, 0, ⟨some (Finset.range 10), Finset.range 2, ∅, ∅, 0⟩⟩

/-- A bundle tractometry input with a 10-voxel gt mask and OL_PCT 3/10, for
the C8 counterexample. -/
def c8fC : BundleTract :=
  ⟨"C", 1, 0, ⟨some (Finset.range 10), Finset.range 3, ∅, ∅, 0⟩⟩

theorem exOk_error_iff {α : Type} (x : Except String α) :
    exOk x = false ↔ ∃ e, x = .error e := by
  cases x <;> simp [exOk]

theorem exOk_ok_iff {α : Type} (x : Except String α) :
    exOk x = true ↔ ∃ a, x = .ok a := by
  cases x <;> simp [exOk]

theorem exOk_bind {α β : Type} (x : Except String α) (f : α → Except String β) :
    exOk (x >>= f) = (match x with | .ok a => exOk (f a) | .error _ => false) := by
  cases x <;> rfl

theorem applyKey_exOk (useGtAsLimits : Bool) (gtDir limDir roisDir : String)
    (ks : List CKey) (acc : BundleAcc) (k : CKey) :
    exOk (applyKey useGtAsLimits gtDir limDir roisDir ks acc k) =
      !keyFails useGtAsLimits ks k := by
  cases k with
  | angle v => rfl
  | length v => rfl
  | length_x v => rfl
  | length_y v => rfl
  | length_z v => rfl
  | gt_mask p => rfl
  | limits_mask p => cases useGtAsLimits <;> simp [applyKey, keyFails, exOk]
  | endpoints p =>
      cases hht : hasHeadKey ks || hasTailKey ks <;>
        simp [applyKey, keyFails, exOk, hht]
  | head p =>
      cases ht : tailValue ks with
      | none => simp [applyKey, keyFails, exOk, ht]
      | some t => simp [applyKey, keyFails, exOk, ht]
  | tail p => rfl
  | unknown s => rfl

theorem foldlM_applyKey_exOk (useGtAsLimits : Bool) (gtDir limDir roisDir : String)
    (ks : List CKey) (ats : List CKey) :
    ∀ acc : BundleAcc,
      exOk (ats.foldlM (applyKey useGtAsLimits gtDir limDir roisDir ks) acc) =
        ats.all (fun k => !keyFails useGtAsLimits ks k) := by
  induction ats with
  | nil => intro acc; rfl
  | cons a ats ih =>
      intro acc
      rw [List.foldlM_cons, exOk_bind]
      have h := applyKey_exOk useGtAsLimits gtDir limDir roisDir ks acc a
      cases hk : applyKey useGtAsLimits gtDir limDir roisDir ks acc a with
      | error e =>
          rw [hk] at h
          simp only [exOk] at h
          simp [List.all_cons, ← h]
      | ok acc2 =>
          rw [hk] at h
          simp only [exOk] at h
          simp [List.all_cons, ← h, ih acc2]

theorem tailValue_isNone (ks : List CKey) :
    (tailValue ks).isNone = !hasTailKey ks := by
  induction ks with
  | nil => rfl
  | cons k ks ih =>
      simp only [tailValue, hasTailKey, List.findSome?_cons, List.any_cons] at ih ⊢
      cases k <;> first | rfl | exact ih

theorem hasEndpointsKey_iff (ks : List CKey) :
    hasEndpointsKey ks = true ↔ ∃ p, CKey.endpoints p ∈ ks := by
  rw [hasEndpointsKey, List.any_eq_true]
  constructor
  · rintro ⟨k, hk, hk2⟩
    cases k <;> simp at hk2
    exact ⟨_, hk⟩
  · rintro ⟨p, hp⟩
    exact ⟨_, hp, rfl⟩

theorem hasHeadKey_iff (ks : List CKey) :
    hasHeadKey ks = true ↔ ∃ p, CKey.head p ∈ ks := by
  rw [hasHeadKey, List.any_eq_true]
  constructor
  · rintro ⟨k, hk, hk2⟩
    cases k <;> simp at hk2
    exact ⟨_, hk⟩
  · rintro ⟨p, hp⟩
    exact ⟨_, hp, rfl⟩

theorem hasTailKey_iff (ks : List CKey) :
    hasTailKey ks = true ↔ ∃ p, CKey.tail p ∈ ks := by
  rw [hasTailKey, List.any_eq_true]
  constructor
  · rintro ⟨k, hk, hk2⟩
    cases k <;> simp at hk2
    exact ⟨_, hk⟩
  · rintro ⟨p, hp⟩
    exact ⟨_, hp, rfl⟩

theorem hasUnknownKey_iff (ks : List CKey) :
    hasUnknownKey ks = true ↔ ∃ s, CKey.unknown s ∈ ks := by
  rw [hasUnknownKey, List.any_eq_true]
  constructor
  · rintro ⟨k, hk, hk2⟩
    cases k <;> simp at hk2
    exact ⟨_, hk⟩
  · rintro ⟨s, hs⟩
    exact ⟨_, hs, rfl⟩

theorem hasLimitsMaskKey_iff (ks : List CKey) :
    hasLimitsMaskKey ks = true ↔ ∃ p, CKey.limits_mask p ∈ ks := by
  rw [hasLimitsMaskKey, List.any_eq_true]
  constructor
  · rintro ⟨k, hk, hk2⟩
    cases k <;> simp at hk2
    exact ⟨_, hk⟩
  · rintro ⟨p, hp⟩
    exact ⟨_, hp, rfl⟩

theorem all_keyFails_eq (flag : Bool) (ks : List CKey)
    (hep : (hasEndpointsKey ks && (hasHeadKey ks || hasTailKey ks)) = false)
    (hhd : (hasHeadKey ks && !hasTailKey ks) = false) :
    ks.all (fun k => !keyFails flag ks k) =
      (!hasUnknownKey ks && !(flag && hasLimitsMaskKey ks)) := by
  rw [Bool.eq_iff_iff, List.all_eq_true, Bool.and_eq_true, Bool.not_eq_true',
    Bool.not_eq_true']
  constructor
  · intro hall
    constructor
    · cases hu : hasUnknownKey ks with
      | false => rfl
      | true =>
          exfalso
          rcases (hasUnknownKey_iff ks).mp hu with ⟨s, hs⟩
          have := hall _ hs
          simp [keyFails] at this
    · cases hf : flag with
      | false => rfl
      | true =>
          cases hl : hasLimitsMaskKey ks with
          | false => rfl
          | true =>
              exfalso
              rcases (hasLimitsMaskKey_iff ks).mp hl with ⟨s, hs⟩
              have := hall _ hs
              simp [keyFails, hf] at this
  · rintro ⟨hu, hfl⟩ k hk
    cases k with
    | angle v => rfl
    | length v => rfl
    | length_x v => rfl
    | length_y v => rfl
    | length_z v => rfl
    | gt_mask p => rfl
    | limits_mask p =>
        have hl : hasLimitsMaskKey ks = true := (hasLimitsMaskKey_iff ks).mpr ⟨_, hk⟩
        rw [hl, Bool.and_true] at hfl
        simp [keyFails, hfl]
    | endpoints p =>
        have he : hasEndpointsKey ks = true := (hasEndpointsKey_iff ks).mpr ⟨_, hk⟩
        rw [he, Bool.true_and] at hep
        simp [keyFails, hep]
    | head p =>
        have hh : hasHeadKey ks = true := (hasHeadKey_iff ks).mpr ⟨_, hk⟩
        rw [hh, Bool.true_and, Bool.not_eq_false'] at hhd
        simp [keyFails, tailValue_isNone, hhd]
    | tail p => rfl
    | unknown s =>
        exact absurd ((hasUnknownKey_iff ks).mpr ⟨_, hk⟩) (by simp [hu])

theorem parseBundle_exOk (useGtAsLimits : Bool) (gtDir limDir roisDir : String)
    (ks : List CKey) :
    exOk (parseBundle useGtAsLimits gtDir limDir roisDir ks) =
      !claimedConfigError useGtAsLimits ks := by
  cases hpre : (!hasEndpointsKey ks && !hasHeadKey ks) with
  | true =>
      -- the pre-check fails: neither endpoints nor head
      rw [Bool.and_eq_true, Bool.not_eq_true', Bool.not_eq_true'] at hpre
      unfold parseBundle claimedConfigError
      rw [if_pos (by simp [hpre.1, hpre.2]), hpre.1, hpre.2]
      simp [exOk]
  | false =>
      -- the pre-check passes
      unfold parseBundle claimedConfigError
      rw [hpre, if_neg (by simp), foldlM_applyKey_exOk, Bool.false_or]
      cases hep : hasEndpointsKey ks with
      | false =>
          -- no endpoints key, hence a head key is present
          have hh : hasHeadKey ks = true := by
            cases h : hasHeadKey ks with
            | true => rfl
            | false => rw [hep, h] at hpre; simp at hpre
          cases ht : hasTailKey ks with
          | false =>
              -- head without tail: the head key fails, the claim condition holds
              rcases (hasHeadKey_iff ks).mp hh with ⟨p, hp⟩
              have hfail : ks.all (fun k => !keyFails useGtAsLimits ks k) = false := by
                rw [List.all_eq_false]
                refine ⟨CKey.head p, hp, ?_⟩
                simp [keyFails, tailValue_isNone, ht]
              rw [hfail, hh]
              simp
          | true =>
              -- head and tail both present, no endpoints
              rw [all_keyFails_eq useGtAsLimits ks (by simp [hep]) (by simp [ht])]
              rw [hh]
              simp [Bool.not_or]
      | true =>
          cases hht : (hasHeadKey ks || hasTailKey ks) with
          | false =>
              -- endpoints alone
              rw [Bool.or_eq_false_iff] at hht
              rw [all_keyFails_eq useGtAsLimits ks
                (by simp [hht.1, hht.2]) (by simp [hht.1])]
              rw [hht.1, hht.2]
              simp [Bool.not_or]
          | true =>
              -- endpoints together with head or tail: the endpoints key fails
              rcases (hasEndpointsKey_iff ks).mp hep with ⟨p, hp⟩
              have hfail : ks.all (fun k => !keyFails useGtAsLimits ks k) = false := by
                rw [List.all_eq_false]
                refine ⟨CKey.endpoints p, hp, ?_⟩
                simp [keyFails, hht]
              rw [hfail]
              simp

theorem mapM_parseBundle_exOk (useGtAsLimits : Bool) (gtDir limDir roisDir : String) :
    ∀ config : List (String × List CKey),
      exOk (config.mapM (fun b => do
          let acc ← parseBundle useGtAsLimits gtDir limDir roisDir b.2
          pure ((b.1 : String), acc))) =
        config.all (fun b => !claimedConfigError useGtAsLimits b.2) := by
  intro config
  induction config with
  | nil => rfl
  | cons b config ih =>
      rw [List.mapM_cons, exOk_bind]
      have h := parseBundle_exOk useGtAsLimits gtDir limDir roisDir b.2
      cases hb : parseBundle useGtAsLimits gtDir limDir roisDir b.2 with
      | error e =>
          rw [hb] at h
          simp only [exOk] at h
          simp [List.all_cons, ← h]
      | ok acc =>
          rw [hb] at h
          simp only [exOk] at h
          simp only [List.all_cons, ← h, Bool.true_and, exOk_bind]
          cases hm : config.mapM (fun b => do
              let acc ← parseBundle useGtAsLimits gtDir limDir roisDir b.2
              pure ((b.1 : String), acc)) with
          | error e => rw [hm] at ih; exact ih
          | ok l => rw [hm] at ih; exact ih

theorem read_config_file_exOk (useGtAsLimits : Bool) (gtDir limDir roisDir : String)
    (config : List (String × List CKey)) :
    exOk (read_config_file useGtAsLimits gtDir limDir roisDir config) =
      config.all (fun b => !claimedConfigError useGtAsLimits b.2) := by
  unfold read_config_file
  rw [exOk_bind]
  have h := mapM_parseBundle_exOk useGtAsLimits gtDir limDir roisDir config
  cases hm : config.mapM (fun b => do
      let acc ← parseBundle useGtAsLimits gtDir limDir roisDir b.2
      pure ((b.1 : String), acc)) with
  | error e =>
      rw [hm] at h
      exact h
  | ok l =>
      rw [hm] at h
      exact h

/-- Claim C5: read_config_file raises a configuration error exactly when some
bundle has neither endpoints nor head, has both endpoints and head or tail,
has tail without head or head without tail, holds an unrecognized key, or
supplies limits_mask while the derive-limits-from-gt_mask flag is set; on
every other input the parse succeeds. -/
theorem C5_config_error_iff (useGtAsLimits : Bool) (gtDir limDir roisDir : String)
    (config : List (String × List CKey)) :
    (∃ e, read_config_file useGtAsLimits gtDir limDir roisDir config = .error e) ↔
      ∃ b ∈ config, claimedConfigError useGtAsLimits b.2 = true := by
  rw [← exOk_error_iff, read_config_file_exOk]
  rw [List.all_eq_false]
  constructor
  · rintro ⟨b, hb, hb2⟩
    exact ⟨b, hb, by simpa using hb2⟩
  · rintro ⟨b, hb, hb2⟩
    exact ⟨b, hb, by simpa using hb2⟩

theorem mem_pyDedupAux {α : Type} [DecidableEq α] (x : α) :
    ∀ (l seen : List α), x ∈ pyDedupAux seen l ↔ x ∈ l ∧ x ∉ seen := by
  intro l
  induction l with
  | nil => intro seen; simp [pyDedupAux]
  | cons a l ih =>
      intro seen
      by_cases ha : a ∈ seen
      · rw [pyDedupAux, if_pos ha, ih seen]
        constructor
        · rintro ⟨h1, h2⟩
          exact ⟨List.mem_cons_of_mem a h1, h2⟩
        · rintro ⟨h1, h2⟩
          rcases List.mem_cons.mp h1 with rfl | h1
          · exact absurd ha h2
          · exact ⟨h1, h2⟩
      · rw [pyDedupAux, if_neg ha]
        rw [List.mem_cons, ih (a :: seen), List.mem_cons, List.mem_cons]
        by_cases hxa : x = a
        · subst hxa
          simp [ha]
        · simp [hxa]

theorem nodup_pyDedupAux {α : Type} [DecidableEq α] :
    ∀ (l seen : List α), (pyDedupAux seen l).Nodup := by
  intro l
  induction l with
  | nil => intro seen; simp [pyDedupAux]
  | cons a l ih =>
      intro seen
      by_cases ha : a ∈ seen
      · rw [pyDedupAux, if_pos ha]
        exact ih seen
      · rw [pyDedupAux, if_neg ha]
        refine List.Nodup.cons ?_ (ih (a :: seen))
        intro hmem
        exact ((mem_pyDedupAux a l (a :: seen)).mp hmem).2 (List.mem_cons_self a seen)

theorem mem_pyDedup {α : Type} [DecidableEq α] (l : List α) (x : α) :
    x ∈ pyDedup l ↔ x ∈ l := by
  rw [pyDedup, mem_pyDedupAux]
  simp

theorem nodup_pyDedup {α : Type} [DecidableEq α] (l : List α) :
    (pyDedup l).Nodup :=
  nodup_pyDedupAux l []

theorem mem_pySort {α : Type} [LinearOrder α] (l : List α) (x : α) :
    x ∈ pySort l ↔ x ∈ l :=
  (List.perm_insertionSort _ l).mem_iff

theorem sorted_pySort {α : Type} [LinearOrder α] (l : List α) :
    List.Sorted (· ≤ ·) (pySort l) :=
  List.sorted_insertionSort _ l

theorem nodup_pySort {α : Type} [LinearOrder α] (l : List α) (h : l.Nodup) :
    (pySort l).Nodup :=
  (List.perm_insertionSort _ l).symm.nodup h

theorem mem_npUnique {α : Type} [LinearOrder α] (l : List α) (x : α) :
    x ∈ npUnique l ↔ x ∈ l := by
  rw [npUnique, mem_pySort, mem_pyDedup]

theorem nodup_npUnique {α : Type} [LinearOrder α] (l : List α) :
    (npUnique l).Nodup :=
  nodup_pySort _ (nodup_pyDedup l)

theorem sorted_npUnique {α : Type} [LinearOrder α] (l : List α) :
    List.Sorted (· ≤ ·) (npUnique l) :=
  sorted_pySort _

theorem npUnique_eq_of_mem_iff {α : Type} [LinearOrder α] (l1 l2 : List α)
    (h : ∀ x, x ∈ l1 ↔ x ∈ l2) : npUnique l1 = npUnique l2 := by
  refine List.eq_of_perm_of_sorted ?_ (sorted_npUnique l1) (sorted_npUnique l2)
  rw [List.perm_ext_iff_of_nodup (nodup_npUnique l1) (nodup_npUnique l2)]
  intro a
  rw [mem_npUnique, mem_npUnique]
  exact h a

theorem length_npUnique {α : Type} [LinearOrder α] (l : List α) :
    (npUnique l).length = l.toFinset.card := by
  rw [← List.toFinset_card_of_nodup (nodup_npUnique l)]
  congr 1
  ext a
  simp [mem_npUnique]

theorem mem_intersect1d (a b : List ℕ) (x : ℕ) :
    x ∈ intersect1d a b ↔ x ∈ a ∧ x ∈ b := by
  rw [intersect1d, mem_npUnique, List.mem_filter]
  simp

theorem mem_setdiff1d (a b : List ℕ) (x : ℕ) :
    x ∈ setdiff1d a b ↔ x ∈ a ∧ x ∉ b := by
  rw [setdiff1d, mem_npUnique, List.mem_filter]
  simp

theorem nodup_setdiff1d (a b : List ℕ) : (setdiff1d a b).Nodup :=
  nodup_npUnique _

theorem mem_allNcIds (n : ℕ) (saveWpc : Bool)
    (vsList wpcRaw icList : List (List ℕ)) (x : ℕ) :
    x ∈ allNcIds n saveWpc vsList wpcRaw icList ↔
      x < n ∧ x ∉ allVsIds vsList ∧
        x ∉ allWpcIds saveWpc wpcRaw ∧ x ∉ allIcIds icList := by
  rw [allNcIds, mem_setdiff1d, mem_setdiff1d, mem_setdiff1d, arange, List.mem_range]
  tauto

theorem nodup_allVsIds (vsList : List (List ℕ)) : (allVsIds vsList).Nodup :=
  nodup_npUnique _

theorem nodup_allWpcIds (saveWpc : Bool) (wpcRaw : List (List ℕ)) :
    (allWpcIds saveWpc wpcRaw).Nodup :=
  nodup_npUnique _

theorem nodup_allIcIds (icList : List (List ℕ)) : (allIcIds icList).Nodup :=
  nodup_npUnique _

theorem nodup_allNcIds (n : ℕ) (saveWpc : Bool)
    (vsList wpcRaw icList : List (List ℕ)) :
    (allNcIds n saveWpc vsList wpcRaw icList).Nodup :=
  nodup_setdiff1d _ _

/-- Claim C1 is false as stated: in a run with two configured bundles where
the single streamline is VS of the first bundle and WPC of the second
(reachable per spec 4.2/4.3, and acknowledged by the source's
remove_wpc_belonging_to_another_bundle option), with save_wpc_separately on
and the remove option off, the four final category counts sum to 2 while the
tractogram holds 1 streamline: the final sets do not partition the id range. -/
theorem C1_counterexample :
    (allVsIds [cexVsA, cexVsB]).length +
      (allWpcIds true [cexWpcA, cexWpcB]).length +
      (allIcIds []).length +
      (allNcIds cexStreamlines.length true [cexVsA, cexVsB]
        [cexWpcA, cexWpcB] []).length ≠
      cexStreamlines.length := by decide

/-- Claim C1 amended: the four final counts sum to the total streamline count
whenever the three deduplicated unions all_vs_ids, all_wpc_ids and
all_ic_ids are pairwise disjoint and within the id range; the NC residual is
the complement of their union, so without pairwise disjointness the sum can
exceed the total. -/
theorem C1_partition_of_disjoint (n : ℕ) (saveWpc : Bool)
    (vsList wpcRaw icList : List (List ℕ))
    (hvs : ∀ x ∈ allVsIds vsList, x < n)
    (hwpc : ∀ x ∈ allWpcIds saveWpc wpcRaw, x < n)
    (hic : ∀ x ∈ allIcIds icList, x < n)
    (hvw : ∀ x ∈ allVsIds vsList, x ∉ allWpcIds saveWpc wpcRaw)
    (hvi : ∀ x ∈ allVsIds vsList, x ∉ allIcIds icList)
    (hwi : ∀ x ∈ allWpcIds saveWpc wpcRaw, x ∉ allIcIds icList) :
    (allVsIds vsList).length + (allWpcIds saveWpc wpcRaw).length +
      (allIcIds icList).length +
      (allNcIds n saveWpc vsList wpcRaw icList).length = n := by
  classical
  have hlenV := List.toFinset_card_of_nodup (nodup_allVsIds vsList)
  have hlenW := List.toFinset_card_of_nodup (nodup_allWpcIds saveWpc wpcRaw)
  have hlenI := List.toFinset_card_of_nodup (nodup_allIcIds icList)
  have hlenN := List.toFinset_card_of_nodup (nodup_allNcIds n saveWpc vsList wpcRaw icList)
  have hsub : (allVsIds vsList).toFinset ∪
      (allWpcIds saveWpc wpcRaw).toFinset ∪
      (allIcIds icList).toFinset ⊆ Finset.range n := by
    intro x hx
    rw [Finset.mem_union, Finset.mem_union] at hx
    rw [Finset.mem_range]
    rcases hx with (hx | hx) | hx
    · exact hvs x (List.mem_toFinset.mp hx)
    · exact hwpc x (List.mem_toFinset.mp hx)
    · exact hic x (List.mem_toFinset.mp hx)
  have hVW : Disjoint (allVsIds vsList).toFinset
      (allWpcIds saveWpc wpcRaw).toFinset := by
    rw [Finset.disjoint_left]
    intro x hx hx2
    exact hvw x (List.mem_toFinset.mp hx) (List.mem_toFinset.mp hx2)
  have hVWI : Disjoint ((allVsIds vsList).toFinset ∪
      (allWpcIds saveWpc wpcRaw).toFinset)
      (allIcIds icList).toFinset := by
    rw [Finset.disjoint_union_left]
    constructor
    · rw [Finset.disjoint_left]
      intro x hx hx2
      exact hvi x (List.mem_toFinset.mp hx) (List.mem_toFinset.mp hx2)
    · rw [Finset.disjoint_left]
      intro x hx hx2
      exact hwi x (List.mem_toFinset.mp hx) (List.mem_toFinset.mp hx2)
  have hNC : (allNcIds n saveWpc vsList wpcRaw icList).toFinset =
      Finset.range n \ ((allVsIds vsList).toFinset ∪
        (allWpcIds saveWpc wpcRaw).toFinset ∪
        (allIcIds icList).toFinset) := by
    ext x
    rw [List.mem_toFinset, mem_allNcIds, Finset.mem_sdiff, Finset.mem_range,
      Finset.mem_union, Finset.mem_union, List.mem_toFinset, List.mem_toFinset,
      List.mem_toFinset]
    tauto
  have hcardU : ((allVsIds vsList).toFinset ∪
      (allWpcIds saveWpc wpcRaw).toFinset ∪
      (allIcIds icList).toFinset).card =
        (allVsIds vsList).toFinset.card +
        (allWpcIds saveWpc wpcRaw).toFinset.card +
        (allIcIds icList).toFinset.card := by
    rw [Finset.card_union_of_disjoint hVWI, Finset.card_union_of_disjoint hVW]
  have hcardN : (allNcIds n saveWpc vsList wpcRaw icList).toFinset.card =
      n - ((allVsIds vsList).toFinset ∪
        (allWpcIds saveWpc wpcRaw).toFinset ∪
        (allIcIds icList).toFinset).card := by
    rw [hNC, Finset.card_sdiff hsub, Finset.card_range]
  have hle := Finset.card_le_card hsub
  rw [Finset.card_range] at hle
  omega

/-- Witness for C1_partition_of_disjoint at a run with two bundles with
disjoint final categories. -/
theorem C1_partition_of_disjoint_witness :
    (∀ x ∈ allVsIds [[0], []], x < 2) ∧
    (∀ x ∈ allWpcIds true [[], [1]], x < 2) ∧
    (∀ x ∈ allIcIds [], x < 2) ∧
    (∀ x ∈ allVsIds [[0], []], x ∉ allWpcIds true [[], [1]]) ∧
    (∀ x ∈ allVsIds [[0], []], x ∉ allIcIds []) ∧
    (∀ x ∈ allWpcIds true [[], [1]], x ∉ allIcIds []) ∧
    (allVsIds [[0], []]).length + (allWpcIds true [[], [1]]).length +
      (allIcIds []).length + (allNcIds 2 true [[0], []] [[], [1]] []).length = 2 :=
  ⟨by decide, by decide, by decide, by decide, by decide, by decide,
    C1_partition_of_disjoint 2 true [[0], []] [[], [1]] []
      (by decide) (by decide) (by decide) (by decide) (by decide) (by decide)⟩

/-- Claim C3 is false as stated: with save_wpc_separately off, one bundle
whose WPC list holds the single streamline id 0, main resets wpc_ids_list to
the empty list, so the residual keeps id 0 while the claim's residual
excludes it. -/
theorem C3_counterexample :
    allNcIds 1 false [[]] [[0]] [] ≠ claimedResidual 1 [[]] [[0]] [] := by
  decide

/-- Claim C3 amended: the WPC ids are excluded from the NC/IS residual only
when save_wpc_separately is enabled (then the raw per-bundle WPC ids are
subtracted: save_wpc_all_bundles cleans only the saved sub-tractograms and
never writes back into wpc_ids_list); when it is disabled, main resets
wpc_ids_list to the empty list and the residual is the id range minus the VS
union minus the IC union, so WPC ids fold into the residual. -/
theorem C3_wpc_exclusion_iff_flag (n : ℕ)
    (vsList wpcRaw icList : List (List ℕ)) :
    (∀ x, x ∈ allNcIds n true vsList wpcRaw icList ↔
        x < n ∧ x ∉ allVsIds vsList ∧
          x ∉ wpcRaw.flatten ∧ x ∉ allIcIds icList) ∧
    (∀ x, x ∈ allNcIds n false vsList wpcRaw icList ↔
        x < n ∧ x ∉ allVsIds vsList ∧ x ∉ allIcIds icList) := by
  constructor
  · intro x
    rw [mem_allNcIds]
    have : x ∈ allWpcIds true wpcRaw ↔ x ∈ wpcRaw.flatten := by
      rw [allWpcIds, mem_npUnique, wpcIdsUsed, if_pos rfl]
    tauto
  · intro x
    rw [mem_allNcIds]
    have : x ∉ allWpcIds false wpcRaw := by
      rw [allWpcIds, mem_npUnique, wpcIdsUsed]
      simp
    tauto

/-- Claim C9: the NC residual is disjoint from each of the deduplicated VS,
WPC and IC unions unconditionally, and when those unions stay within the id
range, the four final sets together cover exactly the id range. -/
theorem C9_nc_disjoint_and_cover (n : ℕ) (saveWpc : Bool)
    (vsList wpcRaw icList : List (List ℕ))
    (hvs : ∀ x ∈ allVsIds vsList, x < n)
    (hwpc : ∀ x ∈ allWpcIds saveWpc wpcRaw, x < n)
    (hic : ∀ x ∈ allIcIds icList, x < n) :
    (∀ x ∈ allNcIds n saveWpc vsList wpcRaw icList,
        x ∉ allVsIds vsList ∧ x ∉ allWpcIds saveWpc wpcRaw ∧
          x ∉ allIcIds icList) ∧
    (∀ x, (x ∈ allNcIds n saveWpc vsList wpcRaw icList ∨
        x ∈ allVsIds vsList ∨ x ∈ allWpcIds saveWpc wpcRaw ∨
        x ∈ allIcIds icList) ↔ x < n) := by
  constructor
  · intro x hx
    have := (mem_allNcIds n saveWpc vsList wpcRaw icList x).mp hx
    tauto
  · intro x
    constructor
    · rintro (hx | hx | hx | hx)
      · exact ((mem_allNcIds n saveWpc vsList wpcRaw icList x).mp hx).1
      · exact hvs x hx
      · exact hwpc x hx
      · exact hic x hx
    · intro hx
      by_cases h1 : x ∈ allVsIds vsList
      · exact Or.inr (Or.inl h1)
      · by_cases h2 : x ∈ allWpcIds saveWpc wpcRaw
        · exact Or.inr (Or.inr (Or.inl h2))
        · by_cases h3 : x ∈ allIcIds icList
          · exact Or.inr (Or.inr (Or.inr h3))
          · exact Or.inl ((mem_allNcIds n saveWpc vsList wpcRaw icList x).mpr
              ⟨hx, h1, h2, h3⟩)

/-- Witness for C9_nc_disjoint_and_cover at a concrete three-streamline run. -/
theorem C9_nc_disjoint_and_cover_witness :
    (∀ x ∈ allNcIds 4 true [[0]] [[1]] [[2]],
        x ∉ allVsIds [[0]] ∧ x ∉ allWpcIds true [[1]] ∧
          x ∉ allIcIds [[2]]) ∧
    (∀ x, (x ∈ allNcIds 4 true [[0]] [[1]] [[2]] ∨
        x ∈ allVsIds [[0]] ∨ x ∈ allWpcIds true [[1]] ∨
        x ∈ allIcIds [[2]]) ↔ x < 4) :=
  C9_nc_disjoint_and_cover 4 true [[0]] [[1]] [[2]]
    (by decide) (by decide) (by decide)

theorem dupConflicts_mem :
    ∀ (bundles : List (String × List ℕ)) (i j : ℕ)
      (hi : i < bundles.length) (hj : j < bundles.length), i < j →
      intersect1d (bundles.get ⟨i, hi⟩).2 (bundles.get ⟨j, hj⟩).2 ≠ [] →
      (⟨(bundles.get ⟨i, hi⟩).1, (bundles.get ⟨j, hj⟩).1,
        (intersect1d (bundles.get ⟨i, hi⟩).2 (bundles.get ⟨j, hj⟩).2).length,
        intersect1d (bundles.get ⟨i, hi⟩).2 (bundles.get ⟨j, hj⟩).2⟩ : ConflictRecord) ∈
        dupConflicts bundles := by
  intro bundles
  induction bundles with
  | nil => intro i j hi; exact absurd hi (by simp)
  | cons b rest ih =>
      intro i j hi hj hij hne
      cases i with
      | zero =>
          cases j with
          | zero => exact absurd hij (by omega)
          | succ j' =>
              rw [dupConflicts]
              apply List.mem_append_left
              rw [List.mem_filterMap]
              refine ⟨rest.get ⟨j', by simpa using hj⟩, List.get_mem rest j' _, ?_⟩
              rw [if_neg ?hne2]
              case hne2 => exact hne
              rfl
      | succ i' =>
          cases j with
          | zero => exact absurd hij (by omega)
          | succ j' =>
              rw [dupConflicts]
              apply List.mem_append_right
              exact ih i' j' (by simpa using hi) (by simpa using hj) (by omega) hne

/-- Claim C6: whenever a streamline id is VS of two distinct bundles, the
duplicates loop reports the pair with a conflict record naming both bundles,
counting and listing exactly the ids common to both VS sets, with that id
among them; the VS lists themselves come back unchanged from
compute_vb_vs_all_bundles. -/
theorem C6_duplicates_reported (bundles : List (String × List ℕ)) (i j x : ℕ)
    (hi : i < bundles.length) (hj : j < bundles.length) (hij : i < j)
    (hxi : x ∈ (bundles.get ⟨i, hi⟩).2) (hxj : x ∈ (bundles.get ⟨j, hj⟩).2) :
    (compute_vb_vs_all_bundles bundles).1 = bundles ∧
    ∃ c ∈ (compute_vb_vs_all_bundles bundles).2,
      c.name1 = (bundles.get ⟨i, hi⟩).1 ∧ c.name2 = (bundles.get ⟨j, hj⟩).1 ∧
      c.ids = intersect1d (bundles.get ⟨i, hi⟩).2 (bundles.get ⟨j, hj⟩).2 ∧
      c.count = c.ids.length ∧ x ∈ c.ids ∧ c.ids ≠ [] := by
  have hxd : x ∈ intersect1d (bundles.get ⟨i, hi⟩).2 (bundles.get ⟨j, hj⟩).2 :=
    (mem_intersect1d _ _ x).mpr ⟨hxi, hxj⟩
  have hne : intersect1d (bundles.get ⟨i, hi⟩).2 (bundles.get ⟨j, hj⟩).2 ≠ [] :=
    List.ne_nil_of_mem hxd
  refine ⟨rfl, ?_⟩
  refine ⟨_, dupConflicts_mem bundles i j hi hj hij hne, rfl, rfl, rfl, rfl, hxd, hne⟩

/-- Witness for C6_duplicates_reported: two bundles both claiming streamline
0 as VS yield a conflict record listing exactly id 0. -/
theorem C6_duplicates_reported_witness :
    (compute_vb_vs_all_bundles [("A", [0]), ("B", [0])]).1 = [("A", [0]), ("B", [0])] ∧
    ∃ c ∈ (compute_vb_vs_all_bundles [("A", [0]), ("B", [0])]).2,
      c.name1 = "A" ∧ c.name2 = "B" ∧ c.ids = intersect1d [0] [0] ∧
      c.count = c.ids.length ∧ 0 ∈ c.ids ∧ c.ids ≠ [] :=
  C6_duplicates_reported [("A", [0]), ("B", [0])] 0 1 0
    (by decide) (by decide) (by decide) (by decide) (by decide)

theorem pyRemove_eq {α : Type} [DecidableEq α] :
    ∀ (l : List α) (x : α),
      pyRemove l x = if x ∈ l then some (l.erase x) else none := by
  intro l
  induction l with
  | nil => intro x; simp [pyRemove]
  | cons y ys ih =>
      intro x
      by_cases hyx : y = x
      · subst hyx
        rw [pyRemove, if_pos rfl, if_pos (List.mem_cons_self y ys)]
        rw [List.erase_cons_head]
      · rw [pyRemove, if_neg hyx, ih x]
        by_cases hx : x ∈ ys
        · rw [if_pos hx, if_pos (List.mem_cons_of_mem y hx)]
          rw [List.erase_cons_tail (by simp [hyx])]
          rfl
        · rw [if_neg hx, if_neg ?hc]
          · rfl
          case hc =>
            rw [List.mem_cons]
            rintro (rfl | h)
            · exact hyx rfl
            · exact hx h

theorem removeAll_isSome_iff {α : Type} [DecidableEq α] :
    ∀ (ps l : List α), l.Nodup →
      ((removeAll l ps).isSome ↔ ps.Nodup ∧ ∀ p ∈ ps, p ∈ l) := by
  intro ps
  induction ps with
  | nil => intro l hl; simp [removeAll]
  | cons p ps ih =>
      intro l hl
      rw [removeAll, pyRemove_eq]
      by_cases hp : p ∈ l
      · rw [if_pos hp]
        rw [ih (l.erase p) (hl.erase p)]
        constructor
        · rintro ⟨hn, hmem⟩
          refine ⟨List.Nodup.cons ?_ hn, ?_⟩
          · intro hps
            exact ((hl.mem_erase_iff).mp (hmem p hps)).1 rfl
          · intro q hq
            rcases List.mem_cons.mp hq with rfl | hq
            · exact hp
            · exact ((hl.mem_erase_iff).mp (hmem q hq)).2
        · rintro ⟨hn, hmem⟩
          rw [List.nodup_cons] at hn
          refine ⟨hn.2, ?_⟩
          intro q hq
          rw [hl.mem_erase_iff]
          constructor
          · rintro rfl
            exact hn.1 hq
          · exact hmem q (List.mem_cons_of_mem p hq)
      · rw [if_neg hp]
        simp only [Option.isSome_none, Bool.false_eq_true, false_iff]
        rintro ⟨hn, hmem⟩
        exact hp (hmem p (List.mem_cons_self p ps))

theorem mem_removeAll {α : Type} [DecidableEq α] :
    ∀ (ps l r : List α), l.Nodup → removeAll l ps = some r →
      ∀ x, x ∈ r ↔ x ∈ l ∧ x ∉ ps := by
  intro ps
  induction ps with
  | nil =>
      intro l r hl hr x
      rw [removeAll] at hr
      cases hr
      simp
  | cons p ps ih =>
      intro l r hl hr x
      rw [removeAll, pyRemove_eq] at hr
      by_cases hp : p ∈ l
      · rw [if_pos hp] at hr
        have := ih (l.erase p) r (hl.erase p) hr x
        rw [this, hl.mem_erase_iff, List.mem_cons]
        constructor
        · rintro ⟨⟨hxp, hxl⟩, hxps⟩
          exact ⟨hxl, fun h => h.elim hxp hxps⟩
        · rintro ⟨hxl, hx⟩
          exact ⟨⟨fun h => hx (Or.inl h), hxl⟩, fun h => hx (Or.inr h)⟩
      · rw [if_neg hp] at hr
        cases hr

theorem nodup_removeAll {α : Type} [DecidableEq α] :
    ∀ (ps l r : List α), l.Nodup → removeAll l ps = some r → r.Nodup := by
  intro ps
  induction ps with
  | nil =>
      intro l r hl hr
      rw [removeAll] at hr
      cases hr
      exact hl
  | cons p ps ih =>
      intro l r hl hr
      rw [removeAll, pyRemove_eq] at hr
      by_cases hp : p ∈ l
      · rw [if_pos hp] at hr
        exact ih (l.erase p) r (hl.erase p) hr
      · rw [if_neg hp] at hr
        cases hr

theorem fst_mem_of_mem_combinations2 {α : Type} :
    ∀ (l : List α) (p : α × α), p ∈ combinations2 l → p.1 ∈ l := by
  intro l
  induction l with
  | nil => intro p hp; simp [combinations2] at hp
  | cons x xs ih =>
      intro p hp
      rw [combinations2, List.mem_append] at hp
      rcases hp with hp | hp
      · rcases List.mem_map.mp hp with ⟨y, _, rfl⟩
        exact List.mem_cons_self x xs
      · exact List.mem_cons_of_mem x (ih p hp)

theorem mem_combinations2 {α : Type} [LinearOrder α] :
    ∀ (l : List α), l.Pairwise (· < ·) →
      ∀ p : α × α, p ∈ combinations2 l ↔ p.1 ∈ l ∧ p.2 ∈ l ∧ p.1 < p.2 := by
  intro l
  induction l with
  | nil => intro _ p; simp [combinations2]
  | cons x xs ih =>
      intro hpw p
      rw [List.pairwise_cons] at hpw
      rw [combinations2, List.mem_append, List.mem_cons, List.mem_cons]
      constructor
      · rintro (hp | hp)
        · rcases List.mem_map.mp hp with ⟨y, hy, rfl⟩
          exact ⟨Or.inl rfl, Or.inr hy, hpw.1 y hy⟩
        · have := (ih hpw.2 p).mp hp
          exact ⟨Or.inr this.1, Or.inr this.2.1, this.2.2⟩
      · rintro ⟨h1, h2, hlt⟩
        rcases h1 with h1 | h1
        · rcases h2 with h2 | h2
          · exfalso
            rw [h1, h2] at hlt
            exact lt_irrefl x hlt
          · left
            rw [List.mem_map]
            refine ⟨p.2, h2, ?_⟩
            rw [← h1]
        · rcases h2 with h2 | h2
          · exfalso
            have hx1 : x < p.1 := hpw.1 p.1 h1
            rw [h2] at hlt
            exact lt_irrefl x (lt_trans hx1 hlt)
          · exact Or.inr ((ih hpw.2 p).mpr ⟨h1, h2, hlt⟩)

theorem nodup_combinations2 {α : Type} :
    ∀ (l : List α), l.Nodup → (combinations2 l).Nodup := by
  intro l
  induction l with
  | nil => intro _; simp [combinations2]
  | cons x xs ih =>
      intro hn
      rw [List.nodup_cons] at hn
      rw [combinations2]
      refine List.Nodup.append ?_ (ih hn.2) ?_
      · refine hn.2.map ?_
        intro a b hab
        simpa using congrArg Prod.snd hab
      · intro p hp hp2
        rcases List.mem_map.mp hp with ⟨y, _, rfl⟩
        exact hn.1 (fst_mem_of_mem_combinations2 xs (x, y) hp2)

theorem pairwise_lt_sorted_rois {α : Type} [LinearOrder α] (gt_tails gt_heads : List α) :
    (pySort (allRois gt_tails gt_heads)).Pairwise (· < ·) := by
  have hs := sorted_pySort (allRois gt_tails gt_heads)
  have hn : (pySort (allRois gt_tails gt_heads)).Nodup :=
    nodup_pySort _ (nodup_pyDedup _)
  exact (List.Pairwise.and hs hn).imp (fun hab => lt_of_le_of_ne hab.1 hab.2)

theorem nodup_combCandidates {α : Type} [LinearOrder α] (gt_tails gt_heads : List α) :
    (combCandidates gt_tails gt_heads).Nodup :=
  nodup_combinations2 _ (nodup_pySort _ (nodup_pyDedup _))

/-- Claim C7: when IC computation is enabled and the bundle-pair removal
succeeds, the scored ROI pairs are exactly the unordered pairs of two
distinct files of the deduplicated endpoint-ROI list that are not a declared
bundle's canonically sorted (head, tail) pair. -/
theorem C7_false_pairs {α : Type} [LinearOrder α] (gt_tails gt_heads : List α)
    (l : List (α × α))
    (hsome : combFilename gt_tails gt_heads = some l) (p : α × α) :
    p ∈ l ↔ p.1 ∈ allRois gt_tails gt_heads ∧ p.2 ∈ allRois gt_tails gt_heads ∧
      p.1 < p.2 ∧ p ∉ vbRoiPairs gt_tails gt_heads := by
  have h1 := mem_removeAll (vbRoiPairs gt_tails gt_heads)
    (combCandidates gt_tails gt_heads) l (nodup_combCandidates gt_tails gt_heads)
    hsome p
  rw [combFilename] at hsome
  rw [h1, combCandidates,
    mem_combinations2 _ (pairwise_lt_sorted_rois gt_tails gt_heads),
    mem_pySort, mem_pySort]
  tauto

/-- Witness for C7_false_pairs: two bundles sharing tail file 0, with head
files 1 and 2, leave exactly the one undeclared pair (1, 2). -/
theorem C7_false_pairs_witness :
    combFilename [0, 0] [1, 2] = some [((1 : ℕ), (2 : ℕ))] ∧
    (((1 : ℕ), (2 : ℕ)) ∈ [((1 : ℕ), (2 : ℕ))] ↔
      (1 ∈ allRois [0, 0] [1, 2] ∧ 2 ∈ allRois [0, 0] [1, 2] ∧
        (1 : ℕ) < 2 ∧ ((1 : ℕ), (2 : ℕ)) ∉ vbRoiPairs [0, 0] [1, 2])) :=
  ⟨by decide, C7_false_pairs [0, 0] [1, 2] [(1, 2)] (by decide) (1, 2)⟩

theorem ok_bind {α β : Type} (a : α) (f : α → Except String β) :
    (Except.ok a >>= f) = f a := rfl

theorem error_bind {α β : Type} (e : String) (f : α → Except String β) :
    ((Except.error e : Except String α) >>= f) = Except.error e := rfl

theorem pyDiv_zero (a : ℚ) : pyDiv a 0 = .error ("ZeroDivisionError") := by
  rw [pyDiv, if_pos rfl]

theorem pyDiv_ok (a b : ℚ) (h : b ≠ 0) : pyDiv a b = .ok (a / b) := by
  rw [pyDiv, if_neg h]

/-- Claim C2 is false as stated: on the degenerate-but-valid input with zero
total streamlines, the ratio header of compute_tractometry performs the
python int division VS count over total count and raises ZeroDivisionError
(the error value of the embedding) instead of producing a defined
not-a-number-like sentinel. -/
theorem C2_counterexample :
    compute_tractometry 0 false false [] [] [] [] [] [] [] []
        ([] : List ((ℕ × ℕ) × List ℕ × Finset ℕ)) =
      .error ("ZeroDivisionError") ∧
    ¬ ∃ r, compute_tractometry 0 false false [] [] [] [] [] [] [] []
        ([] : List ((ℕ × ℕ) × List ℕ × Finset ℕ)) = .ok r := by
  have h : compute_tractometry 0 false false [] [] [] [] [] [] [] []
      ([] : List ((ℕ × ℕ) × List ℕ × Finset ℕ)) =
      .error ("ZeroDivisionError") := by decide
  refine ⟨h, ?_⟩
  rintro ⟨r, hr⟩
  rw [h] at hr
  cases hr

/-- Claim C2 amended: the ratio and mean computations of compute_tractometry
divide unguarded, so a zero denominator raises ZeroDivisionError rather than
producing a sentinel: with zero total streamlines the header ratios raise,
with a non-zero total and an empty bundle list the final mean_OL division by
the bundle count raises, and with a non-zero total and a first bundle whose
gt mask has zero voxels the OL_PCT division raises. -/
theorem C2_zero_denominator_raises {α : Type} (total : ℕ) (saveWpc computeIC : Bool)
    (allVs allWpc allIc allNc : List ℕ) (vsList wpcList icList : List (List ℕ))
    (icPairs : List ((α × α) × List ℕ × Finset ℕ)) :
    (total = 0 → ∀ bundles : List BundleTract,
      compute_tractometry total saveWpc computeIC allVs allWpc allIc allNc
        vsList wpcList icList bundles icPairs = .error ("ZeroDivisionError")) ∧
    (total ≠ 0 →
      compute_tractometry total saveWpc computeIC allVs allWpc allIc allNc
        vsList wpcList icList [] icPairs = .error ("ZeroDivisionError")) ∧
    (∀ (b : BundleTract) (rest : List BundleTract) (g : Finset ℕ), total ≠ 0 →
      b.vol.gtMask = some g → g.card = 0 →
      compute_tractometry total saveWpc computeIC allVs allWpc allIc allNc
        vsList wpcList icList (b :: rest) icPairs = .error ("ZeroDivisionError")) := by
  refine ⟨?_, ?_, ?_⟩
  · intro h bundles
    subst h
    simp only [compute_tractometry, Nat.cast_zero, pyDiv_zero, error_bind]
  · intro ht
    have ht2 : ((total : ℚ)) ≠ 0 := Nat.cast_ne_zero.mpr ht
    simp only [compute_tractometry, pyDiv_ok _ _ ht2, ok_bind, List.foldlM_nil,
      pure_bind, List.length_nil, Nat.cast_zero, pyDiv_zero, error_bind]
  · intro b rest g ht hg hcard
    have ht2 : ((total : ℚ)) ≠ 0 := Nat.cast_ne_zero.mpr ht
    simp only [compute_tractometry, pyDiv_ok _ _ ht2, ok_bind, List.foldlM_cons,
      tractStep, hg, hcard, Nat.cast_zero, pyDiv_zero, error_bind]

/-- Witness for C2_zero_denominator_raises: the three zero denominators at
concrete inputs. -/
theorem C2_zero_denominator_raises_witness :
    (compute_tractometry 0 true false [0] [] [] [] [] [] [] []
        ([] : List ((ℕ × ℕ) × List ℕ × Finset ℕ)) = .error ("ZeroDivisionError")) ∧
    (compute_tractometry 5 false false [] [] [] [] [] [] [] []
        ([] : List ((ℕ × ℕ) × List ℕ × Finset ℕ)) = .error ("ZeroDivisionError")) ∧
    (compute_tractometry 5 false false [] [] [] [] [] [] []
        [⟨"b", 0, 0, ⟨some ∅, ∅, ∅, ∅, 0⟩⟩]
        ([] : List ((ℕ × ℕ) × List ℕ × Finset ℕ)) = .error ("ZeroDivisionError")) :=
  ⟨(C2_zero_denominator_raises 0 true false [0] [] [] [] [] [] [] []).1 rfl _,
   (C2_zero_denominator_raises 5 false false [] [] [] [] [] [] [] []).2.1 (by decide),
   (C2_zero_denominator_raises 5 false false [] [] [] [] [] [] [] []).2.2
     ⟨"b", 0, 0, ⟨some ∅, ∅, ∅, ∅, 0⟩⟩ [] ∅ (by decide) rfl rfl⟩

theorem tractStep_eval (saveWpc : Bool) (acc : TractAcc) (b : BundleTract)
    (h : gtOk b) :
    tractStep saveWpc acc b =
      .ok ⟨acc.meanOL + olPctOf b, acc.meanOR + orPctOf b,
        acc.reports ++ [reportOf saveWpc b]⟩ := by
  rcases h with ⟨hs, hc⟩
  cases hg : b.vol.gtMask with
  | none => rw [hg] at hs; cases hs
  | some g =>
      rw [hg] at hc
      rw [Option.getD_some] at hc
      have hc2 : ((g.card : ℚ)) ≠ 0 := Nat.cast_ne_zero.mpr hc
      cases saveWpc with
      | false =>
          simp only [tractStep, hg, pyDiv_ok _ _ hc2, ok_bind, olPctOf, orPctOf,
            reportOf, Option.getD_some, if_neg (Bool.false_ne_true)]
      | true =>
          simp only [tractStep, hg, pyDiv_ok _ _ hc2, ok_bind, olPctOf, orPctOf,
            reportOf, Option.getD_some, if_pos rfl]
          rfl

theorem foldlM_tractStep_eval (saveWpc : Bool) :
    ∀ (bundles : List BundleTract) (acc : TractAcc),
      (∀ b ∈ bundles, gtOk b) →
      bundles.foldlM (tractStep saveWpc) acc =
        .ok ⟨acc.meanOL + (bundles.map olPctOf).sum,
          acc.meanOR + (bundles.map orPctOf).sum,
          acc.reports ++ bundles.map (reportOf saveWpc)⟩ := by
  intro bundles
  induction bundles with
  | nil =>
      intro acc _
      rw [List.foldlM_nil]
      simp only [List.map_nil, List.sum_nil, add_zero, List.append_nil]
      rfl
  | cons b bs ih =>
      intro acc hall
      rw [List.foldlM_cons,
        tractStep_eval saveWpc acc b (hall b (List.mem_cons_self b bs)), ok_bind,
        ih _ (fun q hq => hall q (List.mem_cons_of_mem b hq))]
      simp [add_assoc]

/-- Full successful evaluation of compute_tractometry: with a non-zero total
streamline count, a non-empty bundle list whose bundles all carry non-empty
gt masks, the report is produced with ratios over the total and means over
the bundle count. -/
theorem compute_tractometry_ok_eval {α : Type} (total : ℕ) (saveWpc computeIC : Bool)
    (allVs allWpc allIc allNc : List ℕ) (vsList wpcList icList : List (List ℕ))
    (bundles : List BundleTract) (icPairs : List ((α × α) × List ℕ × Finset ℕ))
    (hT : total ≠ 0) (hne : bundles ≠ []) (hgt : ∀ b ∈ bundles, gtOk b) :
    compute_tractometry total saveWpc computeIC allVs allWpc allIc allNc
      vsList wpcList icList bundles icPairs =
      .ok {
        VS := allVs.length
        WPC := allWpc.length
        IC := allIc.length
        NC := allNc.length
        IS := allIc.length + allNc.length
        VB := (vsList.filter (fun x => x.length > 0)).length
        IB := (icList.filter (fun x => x.length > 0)).length
        WPC_bundle := (wpcList.filter (fun x => x.length > 0)).length
        ratio_VS := (allVs.length : ℚ) / (total : ℚ)
        ratio_IC := (allIc.length : ℚ) / (total : ℚ)
        ratio_NC := (allNc.length : ℚ) / (total : ℚ)
        ratio_IS := ((allIc.length + allNc.length : ℕ) : ℚ) / (total : ℚ)
        ratio_WPC := (allWpc.length : ℚ) / (total : ℚ)
        total_streamlines := total
        bundle_wise := bundles.map (reportOf saveWpc)
        ic_reports := if computeIC then
            icPairs.filterMap (fun e =>
              if e.2.1.length ≠ 0 then some (e.1, e.2.1.length, e.2.2.card) else none)
          else []
        mean_OL := (bundles.map olPctOf).sum / (bundles.length : ℚ)
        mean_OR := (bundles.map orPctOf).sum / (bundles.length : ℚ) } := by
  have hT2 : ((total : ℚ)) ≠ 0 := Nat.cast_ne_zero.mpr hT
  have hL : ((bundles.length : ℚ)) ≠ 0 :=
    Nat.cast_ne_zero.mpr (fun h => hne (List.length_eq_zero.mp h))
  rw [compute_tractometry, pyDiv_ok _ _ hT2, ok_bind, pyDiv_ok _ _ hT2, ok_bind,
    pyDiv_ok _ _ hT2, ok_bind, pyDiv_ok _ _ hT2, ok_bind, pyDiv_ok _ _ hT2, ok_bind,
    foldlM_tractStep_eval saveWpc bundles _ hgt, ok_bind,
    pyDiv_ok _ _ hL, ok_bind, pyDiv_ok _ _ hL, ok_bind]
  simp

/-- Claim C4: the mean formula is as claimed, but the code crashes when a
bundle lacks a gt_mask.  First conjunct: with one bundle without gt_mask
(legal per read_config_file, which only warns), the aggregation raises
KeyError at the line mean_overlap += vb_results["OL_PCT"] instead of
completing with that bundle's metrics absent.  Second conjunct: when every
bundle has a non-empty gt_mask, the aggregation completes and mean_OL is the
sum of the per-bundle OL_PCT divided by the number of configured bundles. -/
theorem C4_missing_gt_mask_keyerror :
    (compute_tractometry 1 false false [] [] [] [0] [[]] [] []
        [⟨"bundle1", 0, 0, ⟨none, ∅, ∅, ∅, 0⟩⟩]
        ([] : List ((ℕ × ℕ) × List ℕ × Finset ℕ)) = .error ("KeyError: OL_PCT")) ∧
    (∀ {α : Type} (total : ℕ) (saveWpc computeIC : Bool)
      (allVs allWpc allIc allNc : List ℕ) (vsList wpcList icList : List (List ℕ))
      (bundles : List BundleTract) (icPairs : List ((α × α) × List ℕ × Finset ℕ)),
      total ≠ 0 → bundles ≠ [] → (∀ b ∈ bundles, gtOk b) →
      ∃ r, compute_tractometry total saveWpc computeIC allVs allWpc allIc allNc
          vsList wpcList icList bundles icPairs = .ok r ∧
        r.mean_OL = (bundles.map olPctOf).sum / (bundles.length : ℚ) ∧
        r.mean_OR = (bundles.map orPctOf).sum / (bundles.length : ℚ)) := by
  constructor
  · decide
  · intro α total saveWpc computeIC allVs allWpc allIc allNc vsList wpcList icList
      bundles icPairs hT hne hgt
    exact ⟨_, compute_tractometry_ok_eval total saveWpc computeIC allVs allWpc allIc
      allNc vsList wpcList icList bundles icPairs hT hne hgt, rfl, rfl⟩

/-- Witness for the quantified part of C4_missing_gt_mask_keyerror, at one
bundle with a one-voxel gt mask. -/
theorem C4_missing_gt_mask_keyerror_witness :
    ∃ r, compute_tractometry 1 false false [] [] [] [0] [[]] [] []
        [⟨"b1", 0, 0, ⟨some (insert 0 ∅), insert 0 ∅, ∅, ∅, 1⟩⟩]
        ([] : List ((ℕ × ℕ) × List ℕ × Finset ℕ)) = .ok r ∧
      r.mean_OL = ([⟨"b1", 0, 0, ⟨some (insert 0 ∅), insert 0 ∅, ∅, ∅, 1⟩⟩].map olPctOf).sum /
        (([(⟨"b1", 0, 0, ⟨some (insert 0 ∅), insert 0 ∅, ∅, ∅, 1⟩⟩ : BundleTract)].length : ℕ) : ℚ) ∧
      r.mean_OR = ([⟨"b1", 0, 0, ⟨some (insert 0 ∅), insert 0 ∅, ∅, ∅, 1⟩⟩].map orPctOf).sum /
        (([(⟨"b1", 0, 0, ⟨some (insert 0 ∅), insert 0 ∅, ∅, ∅, 1⟩⟩ : BundleTract)].length : ℕ) : ℚ) :=
  C4_missing_gt_mask_keyerror.2 1 false false [] [] [] [0] [[]] [] []
    [⟨"b1", 0, 0, ⟨some (insert 0 ∅), insert 0 ∅, ∅, ∅, 1⟩⟩]
    ([] : List ((ℕ × ℕ) × List ℕ × Finset ℕ))
    (by decide) (by decide) (by decide)

/-! Helper lemmas for the deterministic, order-independent pipeline. -/

theorem canonPair_fst_lt_snd_iff {α : Type} [LinearOrder α] (pr : α × α) :
    ((canonPair pr).1 < (canonPair pr).2) ↔ pr.1 ≠ pr.2 := by
  rw [canonPair]
  by_cases h : pr.2 < pr.1
  · rw [if_pos h]
    constructor
    · intro _
      exact (ne_of_lt h).symm
    · intro _
      exact h
  · rw [if_neg h]
    push_neg at h
    constructor
    · exact ne_of_lt
    · exact fun hne => lt_of_le_of_ne h hne

theorem canonPair_mem_rois {α : Type} [LinearOrder α] (gt_tails gt_heads : List α)
    (pr : α × α) (h : pr ∈ gt_tails.zip gt_heads) :
    (canonPair pr).1 ∈ allRois gt_tails gt_heads ∧
      (canonPair pr).2 ∈ allRois gt_tails gt_heads := by
  have h1 : pr.1 ∈ allRois gt_tails gt_heads := by
    rw [allRois, mem_pyDedup, List.mem_append]
    exact Or.inl (List.of_mem_zip h).1
  have h2 : pr.2 ∈ allRois gt_tails gt_heads := by
    rw [allRois, mem_pyDedup, List.mem_append]
    exact Or.inr (List.of_mem_zip h).2
  rw [canonPair]
  by_cases hlt : pr.2 < pr.1
  · rw [if_pos hlt]
    exact ⟨h2, h1⟩
  · rw [if_neg hlt]
    exact ⟨h1, h2⟩

theorem canonPair_mem_combCandidates_iff {α : Type} [LinearOrder α]
    (gt_tails gt_heads : List α) (pr : α × α) (h : pr ∈ gt_tails.zip gt_heads) :
    canonPair pr ∈ combCandidates gt_tails gt_heads ↔ pr.1 ≠ pr.2 := by
  rw [combCandidates, mem_combinations2 _ (pairwise_lt_sorted_rois gt_tails gt_heads),
    mem_pySort, mem_pySort]
  have hm := canonPair_mem_rois gt_tails gt_heads pr h
  constructor
  · rintro ⟨_, _, hlt⟩
    exact (canonPair_fst_lt_snd_iff pr).mp hlt
  · intro hne
    exact ⟨hm.1, hm.2, (canonPair_fst_lt_snd_iff pr).mpr hne⟩

theorem combFilename_isSome_iff {α : Type} [LinearOrder α] (gt_tails gt_heads : List α) :
    (combFilename gt_tails gt_heads).isSome = true ↔
      ((vbRoiPairs gt_tails gt_heads).Nodup ∧
        ∀ pr ∈ gt_tails.zip gt_heads, pr.1 ≠ pr.2) := by
  rw [combFilename, removeAll_isSome_iff _ _ (nodup_combCandidates gt_tails gt_heads)]
  constructor
  · rintro ⟨hn, hmem⟩
    refine ⟨hn, ?_⟩
    intro pr hpr
    exact (canonPair_mem_combCandidates_iff gt_tails gt_heads pr hpr).mp
      (hmem _ (List.mem_map_of_mem canonPair hpr))
  · rintro ⟨hn, hne⟩
    refine ⟨hn, ?_⟩
    intro p hp
    rcases List.mem_map.mp hp with ⟨pr, hpr, rfl⟩
    exact (canonPair_mem_combCandidates_iff gt_tails gt_heads pr hpr).mpr (hne pr hpr)

theorem removeAll_eq_filter {α : Type} [DecidableEq α] :
    ∀ (ps l r : List α), l.Nodup → removeAll l ps = some r →
      r = l.filter (fun x => decide (x ∉ ps)) := by
  intro ps
  induction ps with
  | nil =>
      intro l r hl hr
      rw [removeAll] at hr
      cases hr
      symm
      rw [List.filter_eq_self]
      intro a _
      simp
  | cons p ps ih =>
      intro l r hl hr
      rw [removeAll, pyRemove_eq] at hr
      by_cases hp : p ∈ l
      · rw [if_pos hp] at hr
        have h1 := ih (l.erase p) r (hl.erase p) hr
        rw [h1, hl.erase_eq_filter p, List.filter_filter]
        apply List.filter_congr
        intro x _
        by_cases hxp : x = p <;> by_cases hxps : x ∈ ps <;>
          simp [hxp, hxps, List.mem_cons]
      · rw [if_neg hp] at hr
        cases hr

theorem npUnique_eq_of_perm {α : Type} [LinearOrder α] (l1 l2 : List α)
    (h : List.Perm l1 l2) : npUnique l1 = npUnique l2 :=
  npUnique_eq_of_mem_iff l1 l2 (fun x => h.mem_iff)

theorem setdiff1d_congr (a b1 b2 : List ℕ) (h : ∀ x ∈ a, (x ∈ b1 ↔ x ∈ b2)) :
    setdiff1d a b1 = setdiff1d a b2 := by
  rw [setdiff1d, setdiff1d]
  congr 1
  apply List.filter_congr
  intro x hx
  simp only [decide_eq_decide]
  rw [h x hx]

theorem zipWith_map_self {β γ δ : Type} (f : β → γ → δ) (g : β → γ) :
    ∀ bs : List β, List.zipWith f bs (bs.map g) = bs.map (fun b => f b (g b)) := by
  intro bs
  induction bs with
  | nil => rfl
  | cons b bs ih => simp [List.zipWith_cons_cons, ih]

theorem cleanWpc_true_eval {β : Type} (vs wpc : β → List ℕ) (bs : List β)
    (hdisj : ∀ b ∈ bs, ∀ x ∈ wpc b, x ∉ vs b) :
    cleanWpc true (bs.map vs) (bs.map wpc) =
      bs.map (fun b => setdiff1d (wpc b) ((bs.map vs).flatten)) := by
  rw [cleanWpc, if_pos rfl]
  apply List.ext_getElem
  · simp
  · intro i h1 h2
    simp only [List.length_map, List.length_range] at h1 h2
    rw [List.getElem_map, List.getElem_map, List.getElem_range]
    have hi : i < bs.length := by simpa using h2
    have hwl : i < (bs.map wpc).length := by simpa using hi
    rw [List.getD_eq_getElem (bs.map wpc) [] hwl, List.getElem_map]
    apply setdiff1d_congr
    intro x hx
    have hxnot : x ∉ vs bs[i] := hdisj bs[i] (List.getElem_mem hi) x hx
    constructor
    · intro hmem
      rcases List.mem_flatMap.mp hmem with ⟨j, hj, hmemj⟩
      rcases List.mem_filter.mp hj with ⟨hjr, _⟩
      have hjlen : j < bs.length := by simpa using List.mem_range.mp hjr
      rw [List.getD_eq_getElem (bs.map vs) [] (by simpa using hjlen),
        List.getElem_map] at hmemj
      rw [List.mem_flatten]
      exact ⟨vs bs[j], List.mem_map_of_mem vs (List.getElem_mem hjlen), hmemj⟩
    · intro hmem
      rcases List.mem_flatten.mp hmem with ⟨l, hl, hxl⟩
      rcases List.mem_map.mp hl with ⟨b, hb, rfl⟩
      rcases List.mem_iff_getElem.mp hb with ⟨j, hjlen, rfl⟩
      have hji : j ≠ i := by
        rintro rfl
        exact hxnot hxl
      rw [List.mem_flatMap]
      refine ⟨j, ?_, ?_⟩
      · rw [List.mem_filter]
        constructor
        · rw [List.mem_range]
          simpa using hjlen
        · simpa using hji
      · rw [List.getD_eq_getElem (bs.map vs) [] (by simpa using hjlen),
          List.getElem_map]
        exact hxl

theorem cleanWpc_eq_map {α : Type} (removeWpc : Bool) (bs : List (BundleData α))
    (hdisj : ∀ b ∈ bs, ∀ x ∈ b.wpcIds, x ∉ b.vsIds) :
    cleanWpc removeWpc (bs.map (fun b => b.vsIds)) (bs.map (fun b => b.wpcIds)) =
      bs.map (fun b => if removeWpc then
        setdiff1d b.wpcIds ((bs.map (fun b => b.vsIds)).flatten) else b.wpcIds) := by
  cases removeWpc with
  | false => simp [cleanWpc]
  | true =>
      rw [cleanWpc_true_eval (fun b => b.vsIds) (fun b => b.wpcIds) bs hdisj]
      simp

theorem bundleTractsOf_eq_map {α : Type} (saveWpc removeWpc : Bool)
    (bs : List (BundleData α))
    (hdisj : ∀ b ∈ bs, ∀ x ∈ b.wpcIds, x ∉ b.vsIds) :
    bundleTractsOf saveWpc removeWpc bs =
      bs.map (tractOf saveWpc removeWpc ((bs.map (fun b => b.vsIds)).flatten)) := by
  cases saveWpc with
  | false =>
      rw [bundleTractsOf, if_neg (Bool.false_ne_true), zipWith_map_self]
      apply List.map_congr_left
      intro b _
      rw [tractOf, wpcOf, if_neg (Bool.false_ne_true)]
  | true =>
      rw [bundleTractsOf, if_pos rfl, cleanWpc_eq_map removeWpc bs hdisj,
        zipWith_map_self]
      apply List.map_congr_left
      intro b _
      rw [tractOf, wpcOf, if_pos rfl]

/-- Claim C8 amended: over exact arithmetic, the pipeline is a pure function
of its inputs, so identical runs give identical outputs; moreover the saved
global id sets and every scalar entry of the final report do not depend on
the processing order of the bundles, and the per-bundle report entries are
merely permuted.  The report here carries the exact rational values of the
ratio and mean entries; the source accumulates mean_OL and mean_OR in
binary64, whose rounding does depend on the accumulation order (see the C8
counterexample).  The hypotheses state that the per-bundle WPC and VS sets
are disjoint (true of the classifier by construction), that the run
completes (non-zero streamline count, at least one bundle, every bundle with
a non-empty gt mask, and the declared ROI pairs removable when IC scoring is
on). -/
theorem C8_order_invariance {α : Type} [LinearOrder α] (n : ℕ)
    (saveWpc removeWpc computeIC : Bool) (bs1 bs2 : List (BundleData α))
    (icIds : α × α → List ℕ) (icVox : α × α → Finset ℕ)
    (hperm : List.Perm bs1 bs2)
    (hdisj : ∀ b ∈ bs1, ∀ x ∈ b.wpcIds, x ∉ b.vsIds)
    (hT : n ≠ 0) (hne : bs1 ≠ [])
    (hgt : ∀ b ∈ bs1, b.vol.gtMask.isSome = true ∧ (b.vol.gtMask.getD ∅).card ≠ 0)
    (hcomb : computeIC = true →
      ((vbRoiPairs (bs1.map (fun b => b.gtTail)) (bs1.map (fun b => b.gtHead))).Nodup ∧
        ∀ pr ∈ (bs1.map (fun b => b.gtTail)).zip (bs1.map (fun b => b.gtHead)),
          pr.1 ≠ pr.2)) :
    pipelineSets n saveWpc computeIC bs1 icIds =
      pipelineSets n saveWpc computeIC bs2 icIds ∧
    ∃ r1 r2, runPipeline n saveWpc removeWpc computeIC bs1 icIds icVox = .ok r1 ∧
      runPipeline n saveWpc removeWpc computeIC bs2 icIds icVox = .ok r2 ∧
      List.Perm r1.bundle_wise r2.bundle_wise ∧
      r1 = { r2 with bundle_wise := r1.bundle_wise } := by
  have hpt : List.Perm (bs1.map (fun b => b.gtTail)) (bs2.map (fun b => b.gtTail)) :=
    hperm.map _
  have hph : List.Perm (bs1.map (fun b => b.gtHead)) (bs2.map (fun b => b.gtHead)) :=
    hperm.map _
  have hpv : List.Perm (bs1.map (fun b => b.vsIds)) (bs2.map (fun b => b.vsIds)) :=
    hperm.map _
  have hdisj2 : ∀ b ∈ bs2, ∀ x ∈ b.wpcIds, x ∉ b.vsIds :=
    fun b hb => hdisj b (hperm.mem_iff.mpr hb)
  have hgt2 : ∀ b ∈ bs2, b.vol.gtMask.isSome = true ∧ (b.vol.gtMask.getD ∅).card ≠ 0 :=
    fun b hb => hgt b (hperm.mem_iff.mpr hb)
  have hcand : combCandidates (bs1.map (fun b => b.gtTail)) (bs1.map (fun b => b.gtHead)) =
      combCandidates (bs2.map (fun b => b.gtTail)) (bs2.map (fun b => b.gtHead)) := by
    rw [combCandidates, combCandidates]
    congr 1
    show npUnique (bs1.map (fun b => b.gtTail) ++ bs1.map (fun b => b.gtHead)) =
      npUnique (bs2.map (fun b => b.gtTail) ++ bs2.map (fun b => b.gtHead))
    exact npUnique_eq_of_perm _ _ (hpt.append hph)
  have hpairs1 : vbRoiPairs (bs1.map (fun b => b.gtTail)) (bs1.map (fun b => b.gtHead)) =
      bs1.map (fun b => canonPair (b.gtTail, b.gtHead)) := by
    rw [vbRoiPairs, List.zip_map', List.map_map]
    rfl
  have hpairs2 : vbRoiPairs (bs2.map (fun b => b.gtTail)) (bs2.map (fun b => b.gtHead)) =
      bs2.map (fun b => canonPair (b.gtTail, b.gtHead)) := by
    rw [vbRoiPairs, List.zip_map', List.map_map]
    rfl
  have hpp : List.Perm (vbRoiPairs (bs1.map (fun b => b.gtTail)) (bs1.map (fun b => b.gtHead)))
      (vbRoiPairs (bs2.map (fun b => b.gtTail)) (bs2.map (fun b => b.gtHead))) := by
    rw [hpairs1, hpairs2]
    exact hperm.map _
  obtain ⟨comb, hc1, hc2⟩ : ∃ comb,
      (if computeIC then combFilename (bs1.map (fun b => b.gtTail))
        (bs1.map (fun b => b.gtHead)) else some []) = some comb ∧
      (if computeIC then combFilename (bs2.map (fun b => b.gtTail))
        (bs2.map (fun b => b.gtHead)) else some []) = some comb := by
    cases computeIC with
    | false => exact ⟨[], by simp, by simp⟩
    | true =>
        obtain ⟨hn1, hne1⟩ := hcomb rfl
        obtain ⟨c1, hcc1⟩ := Option.isSome_iff_exists.mp
          ((combFilename_isSome_iff _ _).mpr ⟨hn1, hne1⟩)
        have hn2 := hpp.nodup hn1
        have hne2 : ∀ pr ∈ (bs2.map (fun b => b.gtTail)).zip (bs2.map (fun b => b.gtHead)),
            pr.1 ≠ pr.2 := by
          intro pr hpr
          rw [List.zip_map'] at hpr
          rcases List.mem_map.mp hpr with ⟨b, hb, rfl⟩
          apply hne1
          rw [List.zip_map']
          exact List.mem_map_of_mem _ (hperm.mem_iff.mpr hb)
        obtain ⟨c2, hcc2⟩ := Option.isSome_iff_exists.mp
          ((combFilename_isSome_iff _ _).mpr ⟨hn2, hne2⟩)
        have hceq : c1 = c2 := by
          rw [combFilename] at hcc1 hcc2
          have e1 := removeAll_eq_filter _ _ _ (nodup_combCandidates
            (bs1.map (fun b => b.gtTail)) (bs1.map (fun b => b.gtHead))) hcc1
          have e2 := removeAll_eq_filter _ _ _ (nodup_combCandidates
            (bs2.map (fun b => b.gtTail)) (bs2.map (fun b => b.gtHead))) hcc2
          rw [e1, e2, hcand]
          apply List.filter_congr
          intro x _
          simp only [decide_eq_decide]
          exact not_congr hpp.mem_iff
        exact ⟨c1, by simpa using hcc1, by simp [hcc2, hceq]⟩
  have hVs : allVsIds (bs1.map (fun b => b.vsIds)) = allVsIds (bs2.map (fun b => b.vsIds)) :=
    npUnique_eq_of_perm _ _ hpv.flatten
  have hwfun : (fun b : BundleData α =>
      wpcOf saveWpc removeWpc ((bs1.map (fun b => b.vsIds)).flatten) b) =
      (fun b => wpcOf saveWpc removeWpc ((bs2.map (fun b => b.vsIds)).flatten) b) := by
    funext b
    rw [wpcOf, wpcOf]
    cases saveWpc with
    | false => rfl
    | true =>
        rw [if_pos rfl, if_pos rfl]
        cases removeWpc with
        | false => rfl
        | true =>
            rw [if_pos rfl, if_pos rfl]
            exact setdiff1d_congr _ _ _ (fun x _ => hpv.flatten.mem_iff)
  have hWpcUsed : List.Perm
      (wpcIdsUsed saveWpc (bs1.map (fun b => b.wpcIds)))
      (wpcIdsUsed saveWpc (bs2.map (fun b => b.wpcIds))) := by
    cases saveWpc with
    | false =>
        rw [wpcIdsUsed, wpcIdsUsed, if_neg (Bool.false_ne_true),
          if_neg (Bool.false_ne_true)]
    | true =>
        rw [wpcIdsUsed, wpcIdsUsed, if_pos rfl, if_pos rfl]
        exact hperm.map _
  have hWpc : allWpcIds saveWpc (bs1.map (fun b => b.wpcIds)) =
      allWpcIds saveWpc (bs2.map (fun b => b.wpcIds)) :=
    npUnique_eq_of_perm _ _ hWpcUsed.flatten
  have hNc : allNcIds n saveWpc (bs1.map (fun b => b.vsIds))
      (bs1.map (fun b => b.wpcIds)) (comb.map icIds) =
      allNcIds n saveWpc (bs2.map (fun b => b.vsIds))
        (bs2.map (fun b => b.wpcIds)) (comb.map icIds) := by
    rw [allNcIds, allNcIds, hVs, hWpc]
  have hfunT : (fun b : BundleData α =>
      tractOf saveWpc removeWpc ((bs1.map (fun b => b.vsIds)).flatten) b) =
      (fun b => tractOf saveWpc removeWpc ((bs2.map (fun b => b.vsIds)).flatten) b) := by
    funext b
    rw [tractOf, tractOf, show wpcOf saveWpc removeWpc
      ((bs1.map (fun b => b.vsIds)).flatten) b = wpcOf saveWpc removeWpc
      ((bs2.map (fun b => b.vsIds)).flatten) b from congrFun hwfun b]
  have hbt1 := bundleTractsOf_eq_map saveWpc removeWpc bs1 hdisj
  have hbt2 := bundleTractsOf_eq_map saveWpc removeWpc bs2 hdisj2
  have hbtperm : List.Perm (bundleTractsOf saveWpc removeWpc bs1)
      (bundleTractsOf saveWpc removeWpc bs2) := by
    rw [hbt1, hbt2]
    rw [show (tractOf saveWpc removeWpc ((bs1.map (fun b => b.vsIds)).flatten)) =
      (tractOf saveWpc removeWpc ((bs2.map (fun b => b.vsIds)).flatten)) from hfunT]
    exact hperm.map _
  have hbne1 : bundleTractsOf saveWpc removeWpc bs1 ≠ [] := by
    rw [hbt1]
    simpa [List.map_eq_nil_iff] using hne
  have hbne2 : bundleTractsOf saveWpc removeWpc bs2 ≠ [] := by
    intro h
    exact hbne1 (List.Perm.eq_nil (h ▸ hbtperm))
  have hgt1T : ∀ t ∈ bundleTractsOf saveWpc removeWpc bs1, gtOk t := by
    rw [hbt1]
    intro t ht
    rcases List.mem_map.mp ht with ⟨b, hb, rfl⟩
    exact hgt b hb
  have hgt2T : ∀ t ∈ bundleTractsOf saveWpc removeWpc bs2, gtOk t := by
    rw [hbt2]
    intro t ht
    rcases List.mem_map.mp ht with ⟨b, hb, rfl⟩
    exact hgt2 b hb
  have e1 := compute_tractometry_ok_eval n saveWpc computeIC
    (allVsIds (bs1.map (fun b => b.vsIds)))
    (allWpcIds saveWpc (bs1.map (fun b => b.wpcIds)))
    (allIcIds (comb.map icIds))
    (allNcIds n saveWpc (bs1.map (fun b => b.vsIds))
      (bs1.map (fun b => b.wpcIds)) (comb.map icIds))
    (bs1.map (fun b => b.vsIds))
    (wpcIdsUsed saveWpc (bs1.map (fun b => b.wpcIds)))
    (comb.map icIds)
    (bundleTractsOf saveWpc removeWpc bs1)
    (comb.map (fun p => (p, icIds p, icVox p)))
    hT hbne1 hgt1T
  have e2 := compute_tractometry_ok_eval n saveWpc computeIC
    (allVsIds (bs2.map (fun b => b.vsIds)))
    (allWpcIds saveWpc (bs2.map (fun b => b.wpcIds)))
    (allIcIds (comb.map icIds))
    (allNcIds n saveWpc (bs2.map (fun b => b.vsIds))
      (bs2.map (fun b => b.wpcIds)) (comb.map icIds))
    (bs2.map (fun b => b.vsIds))
    (wpcIdsUsed saveWpc (bs2.map (fun b => b.wpcIds)))
    (comb.map icIds)
    (bundleTractsOf saveWpc removeWpc bs2)
    (comb.map (fun p => (p, icIds p, icVox p)))
    hT hbne2 hgt2T
  have hVB : ((bs1.map (fun b => b.vsIds)).filter (fun x => x.length > 0)).length =
      ((bs2.map (fun b => b.vsIds)).filter (fun x => x.length > 0)).length :=
    (hpv.filter _).length_eq
  have hWPCb : ((wpcIdsUsed saveWpc (bs1.map (fun b => b.wpcIds))).filter
      (fun x => x.length > 0)).length =
      ((wpcIdsUsed saveWpc (bs2.map (fun b => b.wpcIds))).filter
        (fun x => x.length > 0)).length :=
    (hWpcUsed.filter _).length_eq
  have hsumOL : ((bundleTractsOf saveWpc removeWpc bs1).map olPctOf).sum =
      ((bundleTractsOf saveWpc removeWpc bs2).map olPctOf).sum :=
    (hbtperm.map olPctOf).sum_eq
  have hsumOR : ((bundleTractsOf saveWpc removeWpc bs1).map orPctOf).sum =
      ((bundleTractsOf saveWpc removeWpc bs2).map orPctOf).sum :=
    (hbtperm.map orPctOf).sum_eq
  have hlen : (bundleTractsOf saveWpc removeWpc bs1).length =
      (bundleTractsOf saveWpc removeWpc bs2).length := hbtperm.length_eq
  constructor
  · simp only [pipelineSets, hc1, hc2]
    rw [hVs, hWpc, hNc]
  · simp only [runPipeline, hc1, hc2, e1, e2]
    refine ⟨_, _, rfl, rfl, ?_, ?_⟩
    · exact hbtperm.map (reportOf saveWpc)
    · simp only [hVs, hWpc, hNc, hVB, hWPCb, hsumOL, hsumOR, hlen]

/-- Witness for C8_order_invariance at a two-bundle run processed in both
orders. -/
theorem C8_order_invariance_witness :
    pipelineSets 4 true true [c8b1, c8b2] c8ic =
      pipelineSets 4 true true [c8b2, c8b1] c8ic ∧
    ∃ r1 r2, runPipeline 4 true true true [c8b1, c8b2] c8ic c8vox = .ok r1 ∧
      runPipeline 4 true true true [c8b2, c8b1] c8ic c8vox = .ok r2 ∧
      List.Perm r1.bundle_wise r2.bundle_wise ∧
      r1 = { r2 with bundle_wise := r1.bundle_wise } :=
  C8_order_invariance 4 true true true [c8b1, c8b2] [c8b2, c8b1] c8ic c8vox
    (List.Perm.swap c8b2 c8b1 []) (by decide) (by decide) (by decide) (by decide)
    (by decide)

set_option maxRecDepth 10000

theorem f64OfRat_tenth : f64OfRat 1 10 = ⟨3602879701896397, -55⟩ := by
  decide

theorem f64Add_not_assoc :
    f64Add (f64OfRat 1 10) (f64OfRat 2 10) ≠ f64OfRat 3 10 := by
  decide

/-- Claim C8 is false as stated for the reported floating point metrics:
mean_overlap is a python binary64 accumulator (source line 673) and binary64
addition is not associative, so running the tractometry loop over the same
three bundles (OL_PCT values 1/10, 2/10 and 3/10) in the reverse processing
order changes the reported mean_OL value, while the four id sets and every
integer report entry stay unchanged under any reordering. -/
theorem C8_counterexample :
    List.Perm [c8fA, c8fB, c8fC] [c8fC, c8fB, c8fA] ∧
    f64MeanOL [c8fA, c8fB, c8fC] ≠ f64MeanOL [c8fC, c8fB, c8fA] := by
  constructor
  · exact (List.reverse_perm [c8fA, c8fB, c8fC]).symm
  · decide

theorem resultsJson_notin_vb {α : Type} (bs : List (BundleData α)) (noEmpty : Bool) :
    (Artifact.resultsJson : Artifact α) ∉ bs.filterMap (fun b =>
      if b.vsIds.length > 0 || !noEmpty then some (Artifact.vbFile b.name) else none) := by
  intro h
  rcases List.mem_filterMap.mp h with ⟨b, _, hb⟩
  split at hb <;> simp at hb

theorem resultsJson_notin_conflicts {α : Type} (bs : List (BundleData α)) :
    (Artifact.resultsJson : Artifact α) ∉ (dupConflicts (bs.map (fun b => (b.name, b.vsIds)))).map
      (fun c => Artifact.conflictFile c.name1 c.name2) := by
  intro h
  rcases List.mem_map.mp h with ⟨c, _, hc⟩
  simp at hc

theorem resultsJson_notin_wpc {α : Type} (l : List (String × List ℕ)) (noEmpty : Bool) :
    (Artifact.resultsJson : Artifact α) ∉ l.filterMap
      (fun p => if p.2.length > 0 || !noEmpty then some (Artifact.wpcFile p.1) else none) := by
  intro h
  rcases List.mem_filterMap.mp h with ⟨p, _, hp⟩
  split at hp <;> simp at hp

/-- Claim C10: when IC computation is enabled, the removal of the declared
bundle pairs from the candidate combinations succeeds exactly when the
canonically sorted bundle pairs are pairwise distinct and every bundle's
head file differs from its tail file; when this fails, list.remove raises
ValueError and the run aborts with processing_stats.json already written and
results.json never written. -/
theorem C10_removal_success_iff_and_abort {α : Type} [LinearOrder α] (n : ℕ)
    (saveWpc removeWpc noEmpty : Bool) (bs : List (BundleData α))
    (icIds : α × α → List ℕ) (icVox : α × α → Finset ℕ) :
    ((combFilename (bs.map (fun b => b.gtTail)) (bs.map (fun b => b.gtHead))).isSome = true ↔
      ((vbRoiPairs (bs.map (fun b => b.gtTail)) (bs.map (fun b => b.gtHead))).Nodup ∧
        ∀ pr ∈ (bs.map (fun b => b.gtTail)).zip (bs.map (fun b => b.gtHead)),
          pr.1 ≠ pr.2)) ∧
    (¬ ((vbRoiPairs (bs.map (fun b => b.gtTail)) (bs.map (fun b => b.gtHead))).Nodup ∧
        ∀ pr ∈ (bs.map (fun b => b.gtTail)).zip (bs.map (fun b => b.gtHead)),
          pr.1 ≠ pr.2) →
      (mainRun n saveWpc removeWpc true noEmpty bs icIds icVox).2 =
        .error ("ValueError: list.remove(x): x not in list") ∧
      Artifact.processingStats ∈ (mainRun n saveWpc removeWpc true noEmpty bs icIds icVox).1 ∧
      Artifact.resultsJson ∉ (mainRun n saveWpc removeWpc true noEmpty bs icIds icVox).1) := by
  constructor
  · exact combFilename_isSome_iff _ _
  · intro hbad
    have hnone : combFilename (bs.map (fun b => b.gtTail)) (bs.map (fun b => b.gtHead)) = none := by
      rcases ho : combFilename (bs.map (fun b => b.gtTail)) (bs.map (fun b => b.gtHead)) with _ | c
      · exact ho
      · exfalso
        exact hbad ((combFilename_isSome_iff _ _).mp (by rw [ho]; rfl))
    have hmain : mainRun n saveWpc removeWpc true noEmpty bs icIds icVox =
        (bs.filterMap (fun b =>
            if b.vsIds.length > 0 || !noEmpty then some (Artifact.vbFile b.name) else none) ++
          (dupConflicts (bs.map (fun b => (b.name, b.vsIds)))).map
            (fun c => Artifact.conflictFile c.name1 c.name2) ++
          (if saveWpc then
            (List.zipWith (fun (b : BundleData α) (w : List ℕ) => (b.name, w)) bs
              (cleanWpc removeWpc (bs.map (fun b => b.vsIds)) (bs.map (fun b => b.wpcIds)))).filterMap
              (fun p => if p.2.length > 0 || !noEmpty then some (Artifact.wpcFile p.1) else none)
          else []) ++ [Artifact.processingStats],
          .error ("ValueError: list.remove(x): x not in list")) := by
      simp only [mainRun, hnone, eq_self_iff_true, if_true]
    rw [hmain]
    refine ⟨rfl, ?_, ?_⟩
    · apply List.mem_append_right
      exact List.mem_singleton.mpr rfl
    · intro h
      rcases List.mem_append.mp h with h | h
      · rcases List.mem_append.mp h with h | h
        · rcases List.mem_append.mp h with h | h
          · exact resultsJson_notin_vb bs noEmpty h
          · exact resultsJson_notin_conflicts bs h
        · rcases hsw : saveWpc with _ | _
          · rw [hsw] at h
            simp at h
          · rw [hsw] at h
            rw [if_pos rfl] at h
            exact resultsJson_notin_wpc _ noEmpty h
      · rw [List.mem_singleton] at h
        cases h

/-- Witness for C10_removal_success_iff_and_abort at a run whose single
bundle has identical head and tail files. -/
theorem C10_removal_success_iff_and_abort_witness :
    ((combFilename ([c10b].map (fun b => b.gtTail)) ([c10b].map (fun b => b.gtHead))).isSome = true ↔
      ((vbRoiPairs ([c10b].map (fun b => b.gtTail)) ([c10b].map (fun b => b.gtHead))).Nodup ∧
        ∀ pr ∈ ([c10b].map (fun b => b.gtTail)).zip ([c10b].map (fun b => b.gtHead)),
          pr.1 ≠ pr.2)) ∧
    ((mainRun 3 false false true false [c10b] c8ic c8vox).2 =
        .error ("ValueError: list.remove(x): x not in list") ∧
      Artifact.processingStats ∈ (mainRun 3 false false true false [c10b] c8ic c8vox).1 ∧
      Artifact.resultsJson ∉ (mainRun 3 false false true false [c10b] c8ic c8vox).1) :=
  ⟨(C10_removal_success_iff_and_abort 3 false false false [c10b] c8ic c8vox).1,
   (C10_removal_success_iff_and_abort 3 false false false [c10b] c8ic c8vox).2 (by decide)⟩

end ScilScore
